import Mathlib

/-!
# Verification of the paperlike drawing-block core

A shallow embedding of the drawing-block subsystem of the `paperlike`
repository: the pure patch applier (`src/drawing/apply.ts` and
`src/drawing-block/apply.ts`), the history state (`src/drawing/history.ts`),
the action recorder (`src/drawing-block/action-recorder.ts`), the reference
in-memory engine (`src/drawing-block/default-engine.ts`) and the controller
(`src/drawing-block/controller.ts`).

Modelling conventions, chosen to mirror the JavaScript semantics:

* A JS object (element fields, app state, file map) is an association list
  `Obj := List (String × Option JValue)`; an entry whose value is `none`
  models a key that is present but bound to `undefined`.  Lookup takes the
  first matching entry and collapses a present-`undefined` binding to
  `none`, which is exactly the equality that `toEqual`-style structural
  comparison uses (a key bound to `undefined` is indistinguishable from an
  absent key).  The JS spread `{...a, ...b}` is `omerge a b`, where entries
  of `b` win — including entries of `b` that bind `undefined`, which is why
  inverse patches built by `extractReversePatch` can delete keys.
* `DrawingElement` carries its `id` (a string, per the TypeScript type
  `ElementId`) separately from the remaining open fields.
* Effects are made explicit: `Date.now()` and the injected
  `createHistoryGroupId` generator become `ts`/`gid` arguments of the
  operations that consume them, and the synchronous listener notifications
  of the engine become an append-only event `trace` in the engine state
  (one trace entry per `emit`, delivered in call order); the controller's
  emitter is abstracted to a count of emissions.
* `findIndex` + in-place update / `splice` on the first matching element
  are embedded as structurally recursive first-match functions.
-/

inductive JValue where
  | vStr (s : String)
  | vInt (n : Int)
  | vBool (b : Bool)
  deriving DecidableEq, Repr

/-- A JavaScript object as an association list; a `none` value is a key
bound to `undefined`. Earlier entries shadow later ones under `lookup2`. -/
abbrev Obj := List (String × Option JValue)

/-- Two-level lookup: `none` means the key is absent, `some none` means the
key is present and bound to `undefined`. First match wins. -/
def lookup2 : Obj → String → Option (Option JValue)
  | [], _ => none
  | (k, v) :: rest, key => if k = key then some v else lookup2 rest key

/-- Observable lookup: collapses a present-`undefined` binding to `none`,
matching structural (`toEqual`) object equality in JS. -/
def olook (o : Obj) (k : String) : Option JValue := (lookup2 o k).join

def okeys (o : Obj) : List String := o.map Prod.fst

/-- JS spread `{...a, ...b}`: entries of `b` override entries of `a`. -/
def omerge (a b : Obj) : Obj := b ++ a

/-- Lexicographic comparison of character lists by code point; written as a
structural recursion so that it evaluates inside the kernel. -/
def charListLe : List Char → List Char → Bool
  | [], _ => true
  | _ :: _, [] => false
  | a :: as, b :: bs =>
      if a.toNat < b.toNat then true
      else if b.toNat < a.toNat then false
      else charListLe as bs

/-- A computable total order on strings (used only to pick a canonical key
order for object normal forms). -/
def strLe (a b : String) : Bool := charListLe a.data b.data

/-- The sorted list of keys at which `o` has an observable (non-`undefined`)
value. -/
def objSupport (o : Obj) : List String :=
  (List.insertionSort (fun x y => strLe x y = true) (okeys o).dedup).filter
    (fun k => (olook o k).isSome)

/-- Canonical normal form of a JS object: observable bindings listed in
sorted key order. Two objects are structurally equal (in the `toEqual`
sense) exactly when their normal forms coincide (`ObjEq_iff_olook`). -/
def nf (o : Obj) : Obj := (objSupport o).map (fun k => (k, olook o k))

/-- Structural equality of JS objects. -/
def ObjEq (a b : Obj) : Prop := nf a = nf b

instance (a b : Obj) : Decidable (ObjEq a b) := by unfold ObjEq; infer_instance

/-- One drawing element: the immutable string `id` (TypeScript `ElementId`)
plus the open extension fields (`type`, `x`, `y`, `width`, `height`, …). -/
structure DrawingElement where
  id : String
  fields : Obj
  deriving DecidableEq, Repr

/-- Drop any `id` entry from a field patch (the merges below force-restore
the original id, so a conflicting `id` entry in the patch is discarded). -/
def stripId (p : Obj) : Obj := p.filter (fun kv => decide (kv.1 ≠ "id"))

/-- `{...el, ...patch, id: el.id}` — merge a field patch onto an element
while force-restoring the original `id`. -/
def mergeElement (el : DrawingElement) (p : Obj) : DrawingElement :=
  { id := el.id, fields := omerge el.fields (stripId p) }

/-- Reading `original[k]` on an element object: the `id` key holds the id
string, every other key is looked up among the open fields. -/
def elemGet (el : DrawingElement) (k : String) : Option JValue :=
  if k = "id" then some (JValue.vStr el.id) else olook el.fields k

/-- `extractReversePatch` of `controller.ts`, at element type: for each key
of `patch`, record the value `original` held there (recording an explicit
`undefined` for keys the original lacked, so that applying the reverse
patch deletes keys the forward patch introduced). -/
def extractReversePatch (original : DrawingElement) (patch : Obj) : Obj :=
  (okeys patch).map (fun k => (k, elemGet original k))

/-- `extractReversePatch` at plain-object type (used for app state). -/
def extractReversePatchObj (original : Obj) (patch : Obj) : Obj :=
  (okeys patch).map (fun k => (k, olook original k))

/-- `DrawingAppState` and `DrawingFiles` are open JS objects. -/
abbrev DrawingAppState := Obj
abbrev DrawingFiles := Obj

/-- A complete drawing scene snapshot. -/
structure DrawingScene where
  drawingId : String
  elements : List DrawingElement
  appState : DrawingAppState
  files : DrawingFiles
  deriving DecidableEq, Repr

/-- The patch variants of `actions.ts`. -/
inductive DrawingPatch where
  | add_element (element : DrawingElement)
  | update_element (elementId : String) (patch : Obj)
  | delete_element (elementId : String)
  | set_app_state (patch : Obj)
  | upsert_files (files : DrawingFiles)
  deriving DecidableEq, Repr

/-- `applyElementPatch` of `apply.ts`. -/
def applyElementPatch (elements : List DrawingElement) (patch : DrawingPatch) :
    List DrawingElement :=
  match patch with
  | .add_element element => elements ++ [element]
  | .update_element elementId p =>
      elements.map (fun el => if el.id = elementId then mergeElement el p else el)
  | .delete_element elementId =>
      elements.filter (fun el => decide (el.id ≠ elementId))
  | _ => elements

/-- `applyAppStatePatch` of `apply.ts`. -/
def applyAppStatePatch (appState : DrawingAppState) (patch : DrawingPatch) :
    DrawingAppState :=
  match patch with
  | .set_app_state p => omerge appState p
  | _ => appState

/-- `applyFilesPatch` of `apply.ts`. -/
def applyFilesPatch (files : DrawingFiles) (patch : DrawingPatch) : DrawingFiles :=
  match patch with
  | .upsert_files f => omerge files f
  | _ => files

/-- `applyPatches` of `apply.ts`: left fold of the three single-patch
appliers, keeping `drawingId` fixed. -/
def applyPatches (scene : DrawingScene) (patches : List DrawingPatch) : DrawingScene :=
  patches.foldl
    (fun acc patch =>
      { drawingId := acc.drawingId
        elements := applyElementPatch acc.elements patch
        appState := applyAppStatePatch acc.appState patch
        files := applyFilesPatch acc.files patch })
    scene

/-- `DrawingHistoryState` of `history.ts`. -/
structure DrawingHistoryState where
  undoCursor : Int
  actionCount : Int
  deriving DecidableEq, Repr

def createInitialHistoryState : DrawingHistoryState := ⟨-1, 0⟩

/-- `advanceHistory` of `history.ts` (note: computed from the previous
`actionCount`, not from the truncated log's length). -/
def advanceHistory (state : DrawingHistoryState) : DrawingHistoryState :=
  ⟨state.actionCount, state.actionCount + 1⟩

def canUndo (state : DrawingHistoryState) : Bool := decide (0 ≤ state.undoCursor)

def canRedo (state : DrawingHistoryState) : Bool :=
  decide (state.undoCursor < state.actionCount - 1)

def undoHistoryState (state : DrawingHistoryState) : DrawingHistoryState :=
  if canUndo state then { state with undoCursor := state.undoCursor - 1 } else state

def redoHistoryState (state : DrawingHistoryState) : DrawingHistoryState :=
  if canRedo state then { state with undoCursor := state.undoCursor + 1 } else state

/-- `DrawingAction` of `actions.ts`. -/
structure DrawingAction where
  drawingId : String
  historyGroupId : String
  forward : List DrawingPatch
  inverse : List DrawingPatch
  timestamp : Int
  deriving DecidableEq, Repr

/-- JS `array.slice(0, e)` (a negative end counts from the array's end). -/
def jsSliceEnd (l : List DrawingAction) (e : Int) : List DrawingAction :=
  if e < 0 then l.take ((l.length : Int) + e).toNat else l.take e.toNat

/-- JS `array[i]` (out-of-range and negative indices give `undefined`). -/
def jsGet (l : List DrawingAction) (i : Int) : Option DrawingAction :=
  if i < 0 then none else l.get? i.toNat

/-- `ActionRecorder` of `action-recorder.ts`: the action log plus the
undo/redo cursor state. -/
structure ActionRecorder where
  drawingId : String
  actions : List DrawingAction
  historyState : DrawingHistoryState
  deriving DecidableEq, Repr

def ActionRecorder.make (drawingId : String) : ActionRecorder :=
  ⟨drawingId, [], createInitialHistoryState⟩

/-- `ActionRecorder.record`: truncate past the cursor, append a new action
(with caller-supplied group id and timestamp standing for the injected
generator and `Date.now()`), advance the history state. -/
def ActionRecorder.record (r : ActionRecorder) (gid : String) (ts : Int)
    (forward inverse : List DrawingPatch) : ActionRecorder :=
  let kept := jsSliceEnd r.actions (r.historyState.undoCursor + 1)
  let action : DrawingAction := ⟨r.drawingId, gid, forward, inverse, ts⟩
  { r with actions := kept ++ [action], historyState := advanceHistory r.historyState }

/-- `ActionRecorder.undo`: returns the inverse patches of the action at the
cursor (or `none`) together with the updated recorder. -/
def ActionRecorder.undo (r : ActionRecorder) :
    Option (List DrawingPatch) × ActionRecorder :=
  if canUndo r.historyState then
    match jsGet r.actions r.historyState.undoCursor with
    | none => (none, r)
    | some action =>
        (some action.inverse, { r with historyState := undoHistoryState r.historyState })
  else (none, r)

/-- `ActionRecorder.redo`. -/
def ActionRecorder.redo (r : ActionRecorder) :
    Option (List DrawingPatch) × ActionRecorder :=
  if canRedo r.historyState then
    match jsGet r.actions (r.historyState.undoCursor + 1) with
    | none => (none, r)
    | some action =>
        (some action.forward, { r with historyState := redoHistoryState r.historyState })
  else (none, r)

/-- `ActionRecorder.load`: wholesale replacement, trusting the caller. -/
def ActionRecorder.load (r : ActionRecorder) (actions : List DrawingAction)
    (historyState : DrawingHistoryState) : ActionRecorder :=
  { r with actions := actions, historyState := historyState }

/-- Events emitted by the default engine, recorded in call order. Each
entry stands for one synchronous delivery round to every subscriber. -/
inductive EngineEvent where
  | elementsChange (elements : List DrawingElement)
  | selectionChange (selectedIds : List String)
  deriving DecidableEq, Repr

/-- Snapshot type of `engine.ts`. -/
structure EngineSnapshot where
  elements : List DrawingElement
  appState : DrawingAppState
  files : DrawingFiles
  deriving DecidableEq, Repr

/-- `DefaultDrawingEngine` of `default-engine.ts`; defensive copies are the
identity in a value semantics, and the listener list is abstracted into the
emitted-event trace. -/
structure DefaultDrawingEngine where
  elements : List DrawingElement
  appState : DrawingAppState
  files : DrawingFiles
  selectedIds : List String
  trace : List EngineEvent
  deriving DecidableEq, Repr

def DefaultDrawingEngine.make : DefaultDrawingEngine := ⟨[], [], [], [], []⟩

def DefaultDrawingEngine.emitElementsChange (s : DefaultDrawingEngine) :
    DefaultDrawingEngine :=
  { s with trace := s.trace ++ [EngineEvent.elementsChange s.elements] }

def DefaultDrawingEngine.emitSelectionChange (s : DefaultDrawingEngine) :
    DefaultDrawingEngine :=
  { s with trace := s.trace ++ [EngineEvent.selectionChange s.selectedIds] }

def DefaultDrawingEngine.getSnapshot (s : DefaultDrawingEngine) : EngineSnapshot :=
  ⟨s.elements, s.appState, s.files⟩

def DefaultDrawingEngine.loadSnapshot (s : DefaultDrawingEngine)
    (snapshot : EngineSnapshot) : DefaultDrawingEngine :=
  ({ s with
      elements := snapshot.elements
      appState := snapshot.appState
      files := snapshot.files }).emitElementsChange

def DefaultDrawingEngine.addElement (s : DefaultDrawingEngine)
    (element : DrawingElement) : DrawingElement × DefaultDrawingEngine :=
  (element, ({ s with elements := s.elements ++ [element] }).emitElementsChange)

/-- `findIndex` + update-at-index, embedded as a first-match recursion:
returns the pre-mutation copy of the first element whose id matches (if
any) and the updated list. -/
def updateFirst (els : List DrawingElement) (elementId : String) (p : Obj) :
    Option DrawingElement × List DrawingElement :=
  match els with
  | [] => (none, [])
  | el :: rest =>
      if el.id = elementId then (some el, mergeElement el p :: rest)
      else
        let r := updateFirst rest elementId p
        (r.1, el :: r.2)

def DefaultDrawingEngine.updateElement (s : DefaultDrawingEngine)
    (elementId : String) (p : Obj) :
    Option DrawingElement × DefaultDrawingEngine :=
  match updateFirst s.elements elementId p with
  | (none, _) => (none, s)
  | (some before, els2) =>
      (some before, ({ s with elements := els2 }).emitElementsChange)

/-- `findIndex` + `splice(idx, 1)`, embedded as a first-match recursion:
returns the removed element (if any) and the remaining list. -/
def deleteFirst (els : List DrawingElement) (elementId : String) :
    Option DrawingElement × List DrawingElement :=
  match els with
  | [] => (none, [])
  | el :: rest =>
      if el.id = elementId then (some el, rest)
      else
        let r := deleteFirst rest elementId
        (r.1, el :: r.2)

def DefaultDrawingEngine.deleteElement (s : DefaultDrawingEngine)
    (elementId : String) : Option DrawingElement × DefaultDrawingEngine :=
  match deleteFirst s.elements elementId with
  | (none, _) => (none, s)
  | (some removed, els2) =>
      (some removed,
        ({ s with
            elements := els2
            selectedIds := s.selectedIds.erase elementId }).emitElementsChange)

/-- `setAppState`: shallow merge, returns the pre-merge copy. The source
emits no notification here. -/
def DefaultDrawingEngine.setAppState (s : DefaultDrawingEngine) (p : Obj) :
    DrawingAppState × DefaultDrawingEngine :=
  (s.appState, { s with appState := omerge s.appState p })

/-- `upsertFiles`: shallow merge by key, last write wins; no notification. -/
def DefaultDrawingEngine.upsertFiles (s : DefaultDrawingEngine)
    (files : DrawingFiles) : DefaultDrawingEngine :=
  { s with files := omerge s.files files }

def DefaultDrawingEngine.setSelection (s : DefaultDrawingEngine)
    (ids : List String) : DefaultDrawingEngine :=
  ({ s with selectedIds := ids }).emitSelectionChange

/-- `DrawingBlockController` of `controller.ts`, instantiated with the
reference engine; the controller's emitter is abstracted to the number of
emitted state-change notifications. -/
structure DrawingBlockController where
  drawingId : String
  engine : DefaultDrawingEngine
  recorder : ActionRecorder
  emits : Nat
  deriving DecidableEq, Repr

def DrawingBlockController.make (drawingId : String) : DrawingBlockController :=
  ⟨drawingId, DefaultDrawingEngine.make, ActionRecorder.make drawingId, 0⟩

/-- The scene the controller's engine currently holds. -/
def engScene (c : DrawingBlockController) : DrawingScene :=
  ⟨c.drawingId, c.engine.elements, c.engine.appState, c.engine.files⟩

/-- `loadScene`: wholesale snapshot load plus recorder load, then emit. -/
def DrawingBlockController.loadScene (c : DrawingBlockController)
    (scene : DrawingScene) (actions : List DrawingAction)
    (historyState : DrawingHistoryState) : DrawingBlockController :=
  { c with
      engine := c.engine.loadSnapshot ⟨scene.elements, scene.appState, scene.files⟩
      recorder := c.recorder.load actions historyState
      emits := c.emits + 1 }

def DrawingBlockController.addElement (c : DrawingBlockController)
    (element : DrawingElement) (gid : String) (ts : Int) : DrawingBlockController :=
  let r := c.engine.addElement element
  { c with
      engine := r.2
      recorder :=
        c.recorder.record gid ts [.add_element r.1] [.delete_element r.1.id]
      emits := c.emits + 1 }

def DrawingBlockController.updateElement (c : DrawingBlockController)
    (elementId : String) (p : Obj) (gid : String) (ts : Int) :
    DrawingBlockController :=
  match c.engine.updateElement elementId p with
  | (none, e2) => { c with engine := e2 }
  | (some before, e2) =>
      { c with
          engine := e2
          recorder :=
            c.recorder.record gid ts [.update_element elementId p]
              [.update_element elementId (extractReversePatch before p)]
          emits := c.emits + 1 }

def DrawingBlockController.deleteElement (c : DrawingBlockController)
    (elementId : String) (gid : String) (ts : Int) : DrawingBlockController :=
  match c.engine.deleteElement elementId with
  | (none, e2) => { c with engine := e2 }
  | (some removed, e2) =>
      { c with
          engine := e2
          recorder :=
            c.recorder.record gid ts [.delete_element elementId]
              [.add_element removed]
          emits := c.emits + 1 }

def DrawingBlockController.setAppState (c : DrawingBlockController) (p : Obj)
    (gid : String) (ts : Int) : DrawingBlockController :=
  let r := c.engine.setAppState p
  { c with
      engine := r.2
      recorder :=
        c.recorder.record gid ts [.set_app_state p]
          [.set_app_state (extractReversePatchObj r.1 p)]
      emits := c.emits + 1 }

def DrawingBlockController.upsertFiles (c : DrawingBlockController)
    (files : DrawingFiles) (gid : String) (ts : Int) : DrawingBlockController :=
  { c with
      engine := c.engine.upsertFiles files
      recorder := c.recorder.record gid ts [.upsert_files files] [.upsert_files []]
      emits := c.emits + 1 }

def DrawingBlockController.setSelection (c : DrawingBlockController)
    (ids : List String) : DrawingBlockController :=
  { c with engine := c.engine.setSelection ids }

/-- `rebuildFromPatches`: apply patches to the current snapshot and reload
the engine with the result. -/
def rebuildFromPatches (c : DrawingBlockController)
    (patches : List DrawingPatch) : DrawingBlockController :=
  let snap := c.engine.getSnapshot
  let scene : DrawingScene := ⟨c.drawingId, snap.elements, snap.appState, snap.files⟩
  let updated := applyPatches scene patches
  { c with
      engine :=
        c.engine.loadSnapshot ⟨updated.elements, updated.appState, updated.files⟩ }

def DrawingBlockController.undo (c : DrawingBlockController) :
    Bool × DrawingBlockController :=
  match c.recorder.undo with
  | (none, r2) => (false, { c with recorder := r2 })
  | (some patches, r2) =>
      (true,
        { rebuildFromPatches c patches with recorder := r2, emits := c.emits + 1 })

def DrawingBlockController.redo (c : DrawingBlockController) :
    Bool × DrawingBlockController :=
  match c.recorder.redo with
  | (none, r2) => (false, { c with recorder := r2 })
  | (some patches, r2) =>
      (true,
        { rebuildFromPatches c patches with recorder := r2, emits := c.emits + 1 })

/-- The recorded mutating operations of the controller API. -/
inductive MutOp where
  | addElement (element : DrawingElement)
  | updateElement (elementId : String) (patch : Obj)
  | deleteElement (elementId : String)
  | setAppState (patch : Obj)
  | upsertFiles (files : DrawingFiles)
  deriving DecidableEq, Repr

def mutStep (c : DrawingBlockController) (op : MutOp) (gid : String) (ts : Int) :
    DrawingBlockController :=
  match op with
  | .addElement el => c.addElement el gid ts
  | .updateElement i p => c.updateElement i p gid ts
  | .deleteElement i => c.deleteElement i gid ts
  | .setAppState p => c.setAppState p gid ts
  | .upsertFiles f => c.upsertFiles f gid ts

/-- One step of a controller run: a recorded mutating call, an undo or a
redo. -/
inductive CtrlStep where
  | mutate (op : MutOp) (gid : String) (ts : Int)
  | undo
  | redo
  deriving DecidableEq, Repr

def ctrlStep (c : DrawingBlockController) : CtrlStep → DrawingBlockController
  | .mutate op gid ts => mutStep c op gid ts
  | .undo => (c.undo).2
  | .redo => (c.redo).2

def runSteps (c : DrawingBlockController) : List CtrlStep → DrawingBlockController
  | [] => c
  | s :: rest => runSteps (ctrlStep c s) rest

/-- A controller freshly loaded with a starting scene and empty history. -/
def initCtrl (S0 : DrawingScene) : DrawingBlockController :=
  (DrawingBlockController.make S0.drawingId).loadScene S0 [] createInitialHistoryState

/-- No element of `els` already uses id `i`. -/
def freshId (els : List DrawingElement) (i : String) : Bool :=
  els.all (fun e => decide (e.id ≠ i))

/-- Discipline on a step: an added element carries an id that is fresh in
the current engine state, and `upsertFiles` (whose inverse is deliberately
empty) is not used. -/
def stepOK (c : DrawingBlockController) : CtrlStep → Bool
  | .mutate (.addElement el) _ _ => freshId c.engine.elements el.id
  | .mutate (.upsertFiles _) _ _ => false
  | _ => true

def goodSteps : DrawingBlockController → List CtrlStep → Bool
  | _, [] => true
  | c, s :: rest => stepOK c s && goodSteps (ctrlStep c s) rest

/-- No two elements share an id. -/
def UniqueIds (els : List DrawingElement) : Prop :=
  (els.map DrawingElement.id).Nodup

instance (els : List DrawingElement) : Decidable (UniqueIds els) := by
  unfold UniqueIds; infer_instance

/-- Element with normalised fields. -/
def normElem (el : DrawingElement) : DrawingElement := ⟨el.id, nf el.fields⟩

/-- Structural equality of elements (same id, structurally equal fields). -/
def ElemEq (a b : DrawingElement) : Prop := normElem a = normElem b

instance (a b : DrawingElement) : Decidable (ElemEq a b) := by
  unfold ElemEq; infer_instance

/-- Ordered structural equality of element sequences. -/
def ElemsEq (l m : List DrawingElement) : Prop :=
  l.map normElem = m.map normElem

instance (l m : List DrawingElement) : Decidable (ElemsEq l m) := by
  unfold ElemsEq; infer_instance

/-- Structural equality of element sequences up to reordering. -/
def ElemsPermEq (l m : List DrawingElement) : Prop :=
  (l.map normElem).Perm (m.map normElem)

instance (l m : List DrawingElement) : Decidable (ElemsPermEq l m) :=
  List.decidablePerm _ _

/-- Structural equality of the three mutable scene containers. -/
def SceneEq (s t : DrawingScene) : Prop :=
  ElemsEq s.elements t.elements ∧ ObjEq s.appState t.appState ∧
    ObjEq s.files t.files

instance (s t : DrawingScene) : Decidable (SceneEq s t) := by
  unfold SceneEq; infer_instance

/-- Structural equality of the scene containers, with the element sequence
compared up to reordering. -/
def ScenePermEq (s t : DrawingScene) : Prop :=
  ElemsPermEq s.elements t.elements ∧ ObjEq s.appState t.appState ∧
    ObjEq s.files t.files

instance (s t : DrawingScene) : Decidable (ScenePermEq s t) := by
  unfold ScenePermEq; infer_instance

/-- Fold a list of patch lists over a scene. -/
def applyPatchLists (s : DrawingScene) (ls : List (List DrawingPatch)) :
    DrawingScene :=
  ls.foldl applyPatches s

/-- Replay the forward patches of the first `m` actions from a base scene. -/
def replayTo (S0 : DrawingScene) (acts : List DrawingAction) (m : Nat) :
    DrawingScene :=
  applyPatchLists S0 ((acts.take m).map DrawingAction.forward)

/-- Sanity of a recorder state: either the log length matches
`actionCount` and the cursor is in bounds, or (after the
record-after-undo slip, see `C2`) the cursor has run past the log's end. -/
def RecInv (r : ActionRecorder) : Prop :=
  -1 ≤ r.historyState.undoCursor ∧
    (((r.actions.length : Int) = r.historyState.actionCount ∧
        r.historyState.undoCursor ≤ r.historyState.actionCount - 1) ∨
      (r.historyState.undoCursor = r.historyState.actionCount - 1 ∧
        (r.actions.length : Int) ≤ r.historyState.undoCursor))

instance (r : ActionRecorder) : Decidable (RecInv r) := by
  unfold RecInv; infer_instance

/-- Forward/inverse roundtrip validity of the recorded action at index `k`,
relative to the forward replay from `S0`. -/
def RoundTripAt (S0 : DrawingScene) (acts : List DrawingAction) (k : Nat) : Prop :=
  ∀ a, acts.get? k = some a →
    ScenePermEq (applyPatches (replayTo S0 acts (k + 1)) a.inverse)
      (replayTo S0 acts k)

/-- Invariant of a well-formed (non-corrupted) controller state reached
from starting scene `S0`: the log length matches `actionCount`, the cursor
is in bounds, the engine scene is the forward replay up to the cursor (up
to element reordering), every recorded action round-trips at its replay
point, and every replay prefix has unique element ids. -/
def CtrlClean (S0 : DrawingScene) (c : DrawingBlockController) : Prop :=
  ((c.recorder.actions.length : Int) = c.recorder.historyState.actionCount) ∧
  (-1 ≤ c.recorder.historyState.undoCursor) ∧
  (c.recorder.historyState.undoCursor ≤ c.recorder.historyState.actionCount - 1) ∧
  ScenePermEq (engScene c)
    (replayTo S0 c.recorder.actions
      (c.recorder.historyState.undoCursor + 1).toNat) ∧
  (∀ k : Nat, RoundTripAt S0 c.recorder.actions k) ∧
  (∀ m : Nat, UniqueIds (replayTo S0 c.recorder.actions m).elements)

/-- After a record() issued behind the log's end (the `advanceHistory`
slip, see C2) the cursor has run past the log; in such states undo and
redo always fail. -/
def CtrlCorrupt (c : DrawingBlockController) : Prop :=
  c.recorder.historyState.undoCursor = c.recorder.historyState.actionCount - 1 ∧
  (c.recorder.actions.length : Int) ≤ c.recorder.historyState.undoCursor

def CtrlInv (S0 : DrawingScene) (c : DrawingBlockController) : Prop :=
  CtrlClean S0 c ∨ CtrlCorrupt c

/-- Strengthened invariant for runs of recording operations only (no
undo/redo): the cursor sits at the end of the log and the engine scene is
literally the forward replay of the whole log. -/
def MutRunInv (S0 : DrawingScene) (c : DrawingBlockController) : Prop :=
  (c.recorder.historyState.undoCursor + 1 = (c.recorder.actions.length : Int)) ∧
  ((c.recorder.actions.length : Int) = c.recorder.historyState.actionCount) ∧
  engScene c = replayTo S0 c.recorder.actions c.recorder.actions.length ∧
  (∀ k : Nat, RoundTripAt S0 c.recorder.actions k) ∧
  (∀ m : Nat, UniqueIds (replayTo S0 c.recorder.actions m).elements)

/-! ## Recorded patch lists, add-freshness, and concrete test data -/

/-- The forward patch lists of the recorded actions, in record order. -/
def forwardLists (c : DrawingBlockController) : List (List DrawingPatch) :=
  c.recorder.actions.map DrawingAction.forward

/-- The inverse patch lists of the recorded actions, in reverse record
order. -/
def inverseListsRev (c : DrawingBlockController) : List (List DrawingPatch) :=
  (c.recorder.actions.reverse).map DrawingAction.inverse

/-- A patch is add-fresh for an element list when, if it is an add, the
added element's id is absent from the list. -/
def patchFresh (els : List DrawingElement) : DrawingPatch → Bool
  | .add_element el => freshId els el.id
  | _ => true

/-- Every add in the patch list introduces an id that is fresh at its
point of application. -/
def freshAdds : List DrawingElement → List DrawingPatch → Bool
  | _, [] => true
  | els, p :: ps => patchFresh els p && freshAdds (applyElementPatch els p) ps

/-- Concrete elements, scenes and patches for the worked scenarios. -/
def elemA : DrawingElement := ⟨"e1", []⟩

def elemB : DrawingElement := ⟨"e2", []⟩

def sceneAB : DrawingScene := ⟨"d1", [elemA, elemB], [], []⟩

def sceneEmpty : DrawingScene := ⟨"d1", [], [], []⟩

/-- The rectangle `r1` of Scenario A of the spec. -/
def rectR1 : DrawingElement :=
  ⟨"r1",
    [("type", some (JValue.vStr "rectangle")), ("x", some (JValue.vInt 10)),
      ("y", some (JValue.vInt 20)), ("width", some (JValue.vInt 100)),
      ("height", some (JValue.vInt 50))]⟩

/-- `r1` after the update `x → 50`. -/
def rectR1x50 : DrawingElement :=
  mergeElement rectR1 [("x", some (JValue.vInt 50))]

/-- Scenario A: add `r1`, update `x → 50`, delete `r1`, then undo three
times. -/
def stepsA : List CtrlStep :=
  [CtrlStep.mutate (.addElement rectR1) "g1" 1,
    CtrlStep.mutate (.updateElement "r1" [("x", some (JValue.vInt 50))]) "g2" 2,
    CtrlStep.mutate (.deleteElement "r1") "g3" 3,
    CtrlStep.undo, CtrlStep.undo, CtrlStep.undo]

/-- A recorder state reached through the public API by recording one
action and undoing it: one logged action, cursor at -1. -/
def recPre : ActionRecorder :=
  ((((ActionRecorder.make "d1").record "g1" 1 [.add_element elemA]
        [.delete_element "e1"]).undo).2)

/-- A recorder run that records, undoes, and records again: the second
record lands with the cursor advanced from the stale pre-truncation
action count. -/
def recBug : ActionRecorder :=
  ((((ActionRecorder.make "d1").record "g1" 1 [.add_element elemA]
        [.delete_element "e1"]).undo).2).record "g2" 2 [.add_element elemB]
    [.delete_element "e2"]

/-- The same record-undo-record slip driven through the controller. -/
def ctrlBug : DrawingBlockController :=
  runSteps (initCtrl sceneEmpty)
    [CtrlStep.mutate (.addElement elemA) "g1" 1, CtrlStep.undo,
      CtrlStep.mutate (.addElement elemB) "g2" 2]

/-- An engine holding the single element `elemA`. -/
def engA : DefaultDrawingEngine := ⟨[elemA], [], [], [], []⟩

/-- A field patch that also tries to smuggle in a conflicting `id`. -/
def pId : Obj :=
  [("id", some (JValue.vStr "other")), ("x", some (JValue.vInt 1))]

/-- A one-entry app-state patch. -/
def pZoom : Obj := [("zoom", some (JValue.vInt 2))]

/-- A one-entry files map. -/
def filesK1 : DrawingFiles := [("f1", some (JValue.vStr "dataUrl1"))]

/-- Add two elements, delete the first, and undo once: the engine now
holds the two elements in swapped order relative to any forward replay. -/
def stepsC4 : List CtrlStep :=
  [CtrlStep.mutate (.addElement elemA) "g1" 1,
    CtrlStep.mutate (.addElement elemB) "g2" 2,
    CtrlStep.mutate (.deleteElement "e1") "g3" 3, CtrlStep.undo]

/-- The single mutating operation of the C1 witness run. -/
def opsW : List (MutOp × String × Int) := [(.deleteElement "e1", "g1", 1)]

/-! ## Basic object (association list) lemmas -/

theorem lookup2_append (a b : Obj) (k : String) :
    lookup2 (a ++ b) k = (lookup2 a k).orElse (fun _ => lookup2 b k) := by
  induction a with
  | nil => simp [lookup2]
  | cons kv rest ih =>
      obtain ⟨k1, v⟩ := kv
      by_cases h : k1 = k <;> simp [lookup2, h, ih]

theorem lookup2_eq_none (o : Obj) (k : String) (h : k ∉ okeys o) :
    lookup2 o k = none := by
  induction o with
  | nil => rfl
  | cons kv rest ih =>
      obtain ⟨k1, v⟩ := kv
      simp only [okeys, List.map_cons, List.mem_cons] at h
      push_neg at h
      simp only [lookup2]
      rw [if_neg (fun hh => h.1 hh.symm)]
      exact ih (by simpa [okeys] using h.2)

theorem mem_okeys_of_lookup2 {o : Obj} {k : String} {v : Option JValue}
    (h : lookup2 o k = some v) : k ∈ okeys o := by
  by_contra hk
  rw [lookup2_eq_none o k hk] at h
  exact Option.noConfusion h

theorem olook_eq_none (o : Obj) (k : String) (h : k ∉ okeys o) :
    olook o k = none := by
  unfold olook
  rw [lookup2_eq_none o k h]
  rfl

theorem olook_omerge_some {b : Obj} {k : String} {v : Option JValue}
    (a : Obj) (h : lookup2 b k = some v) : olook (omerge a b) k = v := by
  unfold olook omerge
  rw [lookup2_append, h]
  rfl

theorem olook_omerge_none {b : Obj} {k : String}
    (a : Obj) (h : lookup2 b k = none) : olook (omerge a b) k = olook a k := by
  unfold olook omerge
  rw [lookup2_append, h]
  rfl

theorem lookup2_map_keyed (l : List String) (f : String → Option JValue)
    (k : String) :
    lookup2 (l.map fun x => (x, f x)) k =
      if k ∈ l then some (f k) else none := by
  induction l with
  | nil => simp [lookup2]
  | cons x rest ih =>
      by_cases h : x = k
      · subst h
        simp [lookup2]
      · have hkx : ¬ k = x := fun hh => h hh.symm
        simp [lookup2, h, ih, hkx]

/-! ## Normal forms and structural object equality -/

theorem mem_objSupport (o : Obj) (k : String) :
    k ∈ objSupport o ↔ (olook o k).isSome := by
  unfold objSupport
  rw [List.mem_filter]
  constructor
  · rintro ⟨-, h⟩; exact h
  · intro h
    refine ⟨?_, h⟩
    rw [List.Perm.mem_iff (List.perm_insertionSort _ _), List.mem_dedup]
    rcases hl : lookup2 o k with _ | v
    · rw [olook, hl] at h; exact absurd h (by simp)
    · exact mem_okeys_of_lookup2 hl

theorem charListLe_total : ∀ as bs : List Char,
    charListLe as bs = true ∨ charListLe bs as = true := by
  intro as
  induction as with
  | nil => intro bs; left; rfl
  | cons a as ih =>
      intro bs
      cases bs with
      | nil => right; rfl
      | cons b bs =>
          by_cases h1 : a.toNat < b.toNat
          · left; simp [charListLe, h1]
          · by_cases h2 : b.toNat < a.toNat
            · right; simp [charListLe, h2]
            · rcases ih bs with h | h
              · left; simp [charListLe, h1, h2, h]
              · right; simp [charListLe, h1, h2, h]

theorem charListLe_trans : ∀ as bs cs : List Char,
    charListLe as bs = true → charListLe bs cs = true →
    charListLe as cs = true := by
  intro as
  induction as with
  | nil => intro bs cs _ _; rfl
  | cons a as ih =>
      intro bs cs h1 h2
      cases bs with
      | nil => simp [charListLe] at h1
      | cons b bs =>
          cases cs with
          | nil => simp [charListLe] at h2
          | cons c cs =>
              simp only [charListLe] at h1 h2 ⊢
              by_cases hab : a.toNat < b.toNat
              · by_cases hbc : b.toNat < c.toNat
                · simp [show a.toNat < c.toNat by omega]
                · by_cases hcb : c.toNat < b.toNat
                  · rw [if_neg hbc, if_pos hcb] at h2
                    exact absurd h2 (by simp)
                  · simp [show a.toNat < c.toNat by omega]
              · by_cases hba : b.toNat < a.toNat
                · rw [if_neg hab, if_pos hba] at h1
                  exact absurd h1 (by simp)
                · rw [if_neg hab, if_neg hba] at h1
                  by_cases hbc : b.toNat < c.toNat
                  · simp [show a.toNat < c.toNat by omega]
                  · by_cases hcb : c.toNat < b.toNat
                    · rw [if_neg hbc, if_pos hcb] at h2
                      exact absurd h2 (by simp)
                    · rw [if_neg hbc, if_neg hcb] at h2
                      rw [if_neg (show ¬ a.toNat < c.toNat by omega),
                        if_neg (show ¬ c.toNat < a.toNat by omega)]
                      exact ih bs cs h1 h2

theorem charListLe_antisymm : ∀ as bs : List Char,
    charListLe as bs = true → charListLe bs as = true → as = bs := by
  intro as
  induction as with
  | nil =>
      intro bs h1 h2
      cases bs with
      | nil => rfl
      | cons b bs => simp [charListLe] at h2
  | cons a as ih =>
      intro bs h1 h2
      cases bs with
      | nil => simp [charListLe] at h1
      | cons b bs =>
          simp only [charListLe] at h1 h2
          by_cases hab : a.toNat < b.toNat
          · rw [if_neg (show ¬ b.toNat < a.toNat by omega), if_pos hab] at h2
            exact absurd h2 (by simp)
          · by_cases hba : b.toNat < a.toNat
            · rw [if_neg hab, if_pos hba] at h1
              exact absurd h1 (by simp)
            · rw [if_neg hab, if_neg hba] at h1
              rw [if_neg hba, if_neg hab] at h2
              have hn : a.toNat = b.toNat := by omega
              have hc : a = b := Char.ext (UInt32.ext hn)
              rw [hc, ih bs h1 h2]

theorem strLe_total (a b : String) : strLe a b = true ∨ strLe b a = true :=
  charListLe_total a.data b.data

theorem strLe_trans {a b c : String} (h1 : strLe a b = true)
    (h2 : strLe b c = true) : strLe a c = true :=
  charListLe_trans _ _ _ h1 h2

theorem strLe_antisymm {a b : String} (h1 : strLe a b = true)
    (h2 : strLe b a = true) : a = b :=
  String.ext (charListLe_antisymm _ _ h1 h2)

theorem objSupport_sorted (o : Obj) :
    List.Sorted (fun x y : String => strLe x y = true) (objSupport o) := by
  haveI : IsTotal String (fun x y => strLe x y = true) := ⟨strLe_total⟩
  haveI : IsTrans String (fun x y => strLe x y = true) :=
    ⟨fun _ _ _ => strLe_trans⟩
  exact (List.sorted_insertionSort _ _).filter _

theorem objSupport_nodup (o : Obj) : (objSupport o).Nodup :=
  (((List.perm_insertionSort (fun x y : String => strLe x y = true) _).symm).nodup
    (List.nodup_dedup _)).filter _

theorem olook_nf (o : Obj) (k : String) : olook (nf o) k = olook o k := by
  unfold nf
  rcases h : olook o k with _ | v
  · have hk : k ∉ objSupport o := by simp [mem_objSupport, h]
    rw [olook, lookup2_map_keyed, if_neg hk]
    rfl
  · have hk : k ∈ objSupport o := by simp [mem_objSupport, h]
    rw [olook, lookup2_map_keyed, if_pos hk, h]
    rfl

theorem ObjEq_iff_olook (a b : Obj) :
    ObjEq a b ↔ ∀ k, olook a k = olook b k := by
  constructor
  · intro h k
    rw [← olook_nf a, ← olook_nf b]
    unfold ObjEq at h
    rw [h]
  · intro h
    have hsup : objSupport a = objSupport b := by
      haveI : IsAntisymm String (fun x y => strLe x y = true) :=
        ⟨fun _ _ => strLe_antisymm⟩
      refine List.eq_of_perm_of_sorted ?_ (objSupport_sorted a) (objSupport_sorted b)
      rw [List.perm_ext_iff_of_nodup (objSupport_nodup a) (objSupport_nodup b)]
      intro k
      rw [mem_objSupport, mem_objSupport, h k]
    unfold ObjEq nf
    rw [hsup]
    exact List.map_congr_left (fun k _ => by rw [h k])

theorem objEq_refl (a : Obj) : ObjEq a a := by unfold ObjEq; rfl

theorem objEq_symm {a b : Obj} (h : ObjEq a b) : ObjEq b a := by
  unfold ObjEq at *; exact h.symm

theorem objEq_trans {a b c : Obj} (h1 : ObjEq a b) (h2 : ObjEq b c) : ObjEq a c := by
  unfold ObjEq at *; exact h1.trans h2

theorem objEq_nf_self (a : Obj) : ObjEq (nf a) a :=
  (ObjEq_iff_olook _ _).mpr (fun k => olook_nf a k)

theorem omerge_congr_left {a a2 : Obj} (h : ObjEq a a2) (b : Obj) :
    ObjEq (omerge a b) (omerge a2 b) := by
  rw [ObjEq_iff_olook] at h ⊢
  intro k
  rcases hb : lookup2 b k with _ | v
  · rw [olook_omerge_none a hb, olook_omerge_none a2 hb, h k]
  · rw [olook_omerge_some a hb, olook_omerge_some a2 hb]

theorem omerge_nil_right (a : Obj) : omerge a [] = a := by
  unfold omerge; rfl

theorem extractObj_congr {a a2 : Obj} (h : ObjEq a a2) (p : Obj) :
    extractReversePatchObj a p = extractReversePatchObj a2 p := by
  unfold extractReversePatchObj
  exact List.map_congr_left (fun k _ => by rw [(ObjEq_iff_olook _ _).mp h k])

/-- Merging a patch and then the extracted reverse patch restores the
original object, up to structural equality. -/
theorem extract_merge_roundtrip (a p : Obj) :
    ObjEq (omerge (omerge a p) (extractReversePatchObj a p)) a := by
  rw [ObjEq_iff_olook]
  intro k
  unfold extractReversePatchObj
  by_cases hk : k ∈ okeys p
  · rw [olook_omerge_some _ (by rw [lookup2_map_keyed, if_pos hk])]
  · rw [olook_omerge_none _ (by rw [lookup2_map_keyed, if_neg hk]),
      olook_omerge_none a (lookup2_eq_none p k hk)]

theorem extract_merge_roundtrip2 {prev a : Obj} (p : Obj) (h : ObjEq prev a) :
    ObjEq (omerge (omerge a p) (extractReversePatchObj prev p)) a := by
  rw [extractObj_congr h p]
  exact extract_merge_roundtrip a p

/-! ## Element-level lemmas -/

theorem lookup2_stripId (p : Obj) (k : String) :
    lookup2 (stripId p) k = if k = "id" then none else lookup2 p k := by
  induction p with
  | nil => simp [stripId, lookup2]
  | cons kv rest ih =>
      obtain ⟨k1, v⟩ := kv
      by_cases h1 : k1 = "id"
      · subst h1
        have hstrip : stripId (("id", v) :: rest) = stripId rest := by
          simp [stripId, List.filter_cons]
        rw [hstrip, ih]
        by_cases h2 : k = "id"
        · simp [h2]
        · simp only [lookup2]
          rw [if_neg h2, if_neg h2, if_neg (fun hh => h2 hh.symm)]
      · have hstrip : stripId ((k1, v) :: rest) = (k1, v) :: stripId rest := by
          simp [stripId, List.filter_cons, h1]
        rw [hstrip]
        simp only [lookup2]
        by_cases h2 : k1 = k
        · have hk : ¬ k = "id" := fun hh => h1 (h2.trans hh)
          rw [if_pos h2, if_neg hk, if_pos h2]
        · rw [if_neg h2, ih]
          by_cases h3 : k = "id"
          · simp [h3]
          · rw [if_neg h3, if_neg h3, if_neg h2]

theorem elemEq_id {a b : DrawingElement} (h : ElemEq a b) : a.id = b.id := by
  unfold ElemEq at h
  have h2 := congrArg DrawingElement.id h
  simpa [normElem] using h2

theorem elemEq_fields {a b : DrawingElement} (h : ElemEq a b) :
    ObjEq a.fields b.fields := by
  unfold ElemEq at h
  have h2 := congrArg DrawingElement.fields h
  simp only [normElem] at h2
  unfold ObjEq
  exact h2

theorem elemEq_of {a b : DrawingElement} (hid : a.id = b.id)
    (hf : ObjEq a.fields b.fields) : ElemEq a b := by
  unfold ElemEq normElem
  unfold ObjEq at hf
  rw [hid, hf]

theorem elemEq_refl (a : DrawingElement) : ElemEq a a := by unfold ElemEq; rfl

theorem elemEq_symm {a b : DrawingElement} (h : ElemEq a b) : ElemEq b a := by
  unfold ElemEq at *; exact h.symm

theorem elemGet_congr {a b : DrawingElement} (h : ElemEq a b) (k : String) :
    elemGet a k = elemGet b k := by
  unfold elemGet
  rw [elemEq_id h]
  by_cases hk : k = "id"
  · simp [hk]
  · simp [hk, (ObjEq_iff_olook _ _).mp (elemEq_fields h) k]

theorem extractElem_congr {b e : DrawingElement} (h : ElemEq b e) (p : Obj) :
    extractReversePatch b p = extractReversePatch e p := by
  unfold extractReversePatch
  exact List.map_congr_left (fun k _ => by rw [elemGet_congr h k])

/-- Updating an element with a patch and then with the extracted reverse
patch restores the element, up to structural equality; `b` is any pre-image
structurally equal to `e`. -/
theorem merge_extract_roundtrip_elem (b e : DrawingElement) (p : Obj)
    (h : ElemEq b e) :
    ElemEq (mergeElement (mergeElement e p) (extractReversePatch b p)) e := by
  refine elemEq_of rfl ?_
  rw [ObjEq_iff_olook]
  intro k
  show olook (omerge (omerge e.fields (stripId p))
      (stripId (extractReversePatch b p))) k = olook e.fields k
  by_cases hid : k = "id"
  · subst hid
    rw [olook_omerge_none _ (by rw [lookup2_stripId]; simp),
      olook_omerge_none _ (by rw [lookup2_stripId]; simp)]
  · have hrev : lookup2 (stripId (extractReversePatch b p)) k =
        if k ∈ okeys p then some (elemGet b k) else none := by
      rw [lookup2_stripId, if_neg hid]
      unfold extractReversePatch
      rw [lookup2_map_keyed]
    by_cases hk : k ∈ okeys p
    · rw [olook_omerge_some _ (by rw [hrev, if_pos hk]), elemGet_congr h k]
      unfold elemGet
      rw [if_neg hid]
    · rw [olook_omerge_none _ (by rw [hrev, if_neg hk]),
        olook_omerge_none _ (by rw [lookup2_stripId, if_neg hid,
          lookup2_eq_none p k hk])]

theorem normElem_id (e : DrawingElement) : (normElem e).id = e.id := rfl

theorem mergeElement_id (e : DrawingElement) (p : Obj) :
    (mergeElement e p).id = e.id := rfl

theorem normElem_mergeElement (e : DrawingElement) (p : Obj) :
    normElem (mergeElement (normElem e) p) = normElem (mergeElement e p) := by
  unfold normElem mergeElement
  simp only
  have := omerge_congr_left (objEq_nf_self e.fields) (stripId p)
  unfold ObjEq at this
  rw [this]

/-! ## Element list relations -/

theorem elemsEq_refl (l : List DrawingElement) : ElemsEq l l := by
  unfold ElemsEq; rfl

theorem elemsPermEq_refl (l : List DrawingElement) : ElemsPermEq l l :=
  List.Perm.refl _

theorem sceneEq_refl (s : DrawingScene) : SceneEq s s :=
  ⟨elemsEq_refl _, objEq_refl _, objEq_refl _⟩

theorem scenePermEq_refl (s : DrawingScene) : ScenePermEq s s :=
  ⟨elemsPermEq_refl _, objEq_refl _, objEq_refl _⟩

theorem scenePermEq_symm {s t : DrawingScene} (h : ScenePermEq s t) :
    ScenePermEq t s :=
  ⟨(h.1 : ElemsPermEq _ _).symm, objEq_symm h.2.1, objEq_symm h.2.2⟩

theorem scenePermEq_trans {s t u : DrawingScene} (h1 : ScenePermEq s t)
    (h2 : ScenePermEq t u) : ScenePermEq s u :=
  ⟨(h1.1 : ElemsPermEq _ _).trans h2.1, objEq_trans h1.2.1 h2.2.1,
    objEq_trans h1.2.2 h2.2.2⟩

theorem scenePermEq_of_sceneEq {s t : DrawingScene} (h : SceneEq s t) :
    ScenePermEq s t := by
  obtain ⟨h1, h2, h3⟩ := h
  refine ⟨?_, h2, h3⟩
  unfold ElemsEq at h1
  unfold ElemsPermEq
  rw [h1]

theorem map_normElem_filter_id (l : List DrawingElement) (i : String) :
    (l.filter (fun el => decide (el.id ≠ i))).map normElem =
      (l.map normElem).filter (fun el => decide (el.id ≠ i)) := by
  induction l with
  | nil => rfl
  | cons a rest ih =>
      simp only [ne_eq, decide_not] at ih
      have hid : (normElem a).id = a.id := rfl
      by_cases h : a.id = i <;> simp [List.filter_cons, h, hid, ih]

theorem ids_map_normElem (l : List DrawingElement) :
    (l.map normElem).map DrawingElement.id = l.map DrawingElement.id := by
  rw [List.map_map]
  exact List.map_congr_left (fun e _ => rfl)

theorem elemsPermEq_ids {l m : List DrawingElement} (h : ElemsPermEq l m) :
    (l.map DrawingElement.id).Perm (m.map DrawingElement.id) := by
  unfold ElemsPermEq at h
  have h2 := h.map DrawingElement.id
  rwa [ids_map_normElem, ids_map_normElem] at h2

theorem uniqueIds_transport {l m : List DrawingElement} (h : ElemsPermEq l m)
    (hU : UniqueIds l) : UniqueIds m := by
  unfold UniqueIds at *
  exact (elemsPermEq_ids h).nodup hU

theorem uniqueIds_map_normElem {l : List DrawingElement} (hU : UniqueIds l) :
    UniqueIds (l.map normElem) := by
  unfold UniqueIds at *
  rwa [ids_map_normElem]

theorem eq_of_mem_same_id {l : List DrawingElement} (hU : UniqueIds l)
    {a b : DrawingElement} (ha : a ∈ l) (hb : b ∈ l) (hid : a.id = b.id) :
    a = b := by
  induction l with
  | nil => cases ha
  | cons x rest ih =>
      unfold UniqueIds at hU
      rw [List.map_cons, List.nodup_cons] at hU
      rcases List.mem_cons.mp ha with rfl | ha2
      · rcases List.mem_cons.mp hb with rfl | hb2
        · rfl
        · exact absurd (by rw [hid]; exact List.mem_map_of_mem _ hb2) hU.1
      · rcases List.mem_cons.mp hb with rfl | hb2
        · exact absurd (by rw [← hid]; exact List.mem_map_of_mem _ ha2) hU.1
        · exact ih (by unfold UniqueIds; exact hU.2) ha2 hb2

theorem fresh_transport {l m : List DrawingElement} (h : ElemsPermEq l m)
    (i : String) (hf : ∀ e ∈ l, e.id ≠ i) : ∀ e ∈ m, e.id ≠ i := by
  intro e he hei
  have h1 : e.id ∈ m.map DrawingElement.id := List.mem_map_of_mem _ he
  have h2 : e.id ∈ l.map DrawingElement.id := (elemsPermEq_ids h).mem_iff.mpr h1
  obtain ⟨e2, he2, heq⟩ := List.mem_map.mp h2
  exact hf e2 he2 (heq.trans hei)

theorem match_transport {l m : List DrawingElement} (h : ElemsPermEq l m)
    (hU : UniqueIds l) {b : DrawingElement} {i : String} (hb : b ∈ l)
    (hbi : b.id = i) : ∀ e ∈ m, e.id = i → ElemEq b e := by
  intro e he hei
  have h1 : normElem e ∈ m.map normElem := List.mem_map_of_mem _ he
  have h2 : normElem e ∈ l.map normElem := by
    unfold ElemsPermEq at h
    exact h.mem_iff.mpr h1
  obtain ⟨e2, he2, heq⟩ := List.mem_map.mp h2
  have hid : e2.id = e.id := by
    have h3 := congrArg DrawingElement.id heq
    simpa [normElem] using h3
  have hbe : e2 = b := eq_of_mem_same_id hU he2 hb (by rw [hid, hei, hbi])
  unfold ElemEq
  rw [← hbe]
  exact heq

/-! ## Uniqueness preservation -/

theorem ids_applyElementPatch_update (l : List DrawingElement) (i : String)
    (p : Obj) :
    (applyElementPatch l (.update_element i p)).map DrawingElement.id =
      l.map DrawingElement.id := by
  unfold applyElementPatch
  rw [List.map_map]
  exact List.map_congr_left
    (fun e _ => by by_cases h : e.id = i <;> simp [h, mergeElement])

theorem uniq_update {l : List DrawingElement} (hU : UniqueIds l) (i : String)
    (p : Obj) : UniqueIds (applyElementPatch l (.update_element i p)) := by
  unfold UniqueIds at *
  rwa [ids_applyElementPatch_update]

theorem uniq_delete {l : List DrawingElement} (hU : UniqueIds l) (i : String) :
    UniqueIds (applyElementPatch l (.delete_element i)) := by
  unfold UniqueIds at *
  exact List.Nodup.sublist ((List.filter_sublist l).map DrawingElement.id) hU

theorem uniq_add {l : List DrawingElement} (hU : UniqueIds l)
    (el : DrawingElement) (hfresh : ∀ e ∈ l, e.id ≠ el.id) :
    UniqueIds (applyElementPatch l (.add_element el)) := by
  unfold UniqueIds applyElementPatch at *
  rw [List.map_append, List.nodup_append]
  refine ⟨hU, List.nodup_singleton _, ?_⟩
  intro x hx hx2
  simp only [List.map_cons, List.map_nil, List.mem_singleton] at hx2
  obtain ⟨e, he, rfl⟩ := List.mem_map.mp hx
  exact hfresh e he hx2

/-! ## Patch application: unfolding and congruence -/

theorem applyPatches_nil (s : DrawingScene) : applyPatches s [] = s := rfl

theorem applyPatches_cons (s : DrawingScene) (p : DrawingPatch)
    (ps : List DrawingPatch) :
    applyPatches s (p :: ps) = applyPatches (applyPatches s [p]) ps := rfl

theorem applyPatches_single (s : DrawingScene) (p : DrawingPatch) :
    applyPatches s [p] =
      ⟨s.drawingId, applyElementPatch s.elements p,
        applyAppStatePatch s.appState p, applyFilesPatch s.files p⟩ := rfl

theorem applyElementPatch_permCongr {l m : List DrawingElement}
    (h : ElemsPermEq l m) (p : DrawingPatch) :
    ElemsPermEq (applyElementPatch l p) (applyElementPatch m p) := by
  unfold ElemsPermEq at *
  cases p with
  | add_element e =>
      unfold applyElementPatch
      rw [List.map_append, List.map_append]
      exact h.append_right _
  | update_element i p0 =>
      unfold applyElementPatch
      have key : ∀ l2 : List DrawingElement,
          (l2.map (fun el => if el.id = i then mergeElement el p0 else el)).map
              normElem =
            (l2.map normElem).map
              (fun n => if n.id = i then normElem (mergeElement n p0) else n) := by
        intro l2
        rw [List.map_map, List.map_map]
        refine List.map_congr_left (fun e _ => ?_)
        simp only [Function.comp]
        by_cases hc : e.id = i
        · rw [if_pos hc, if_pos (show (normElem e).id = i from hc),
            normElem_mergeElement]
        · rw [if_neg hc, if_neg (show ¬ (normElem e).id = i from hc)]
      rw [key l, key m]
      exact h.map _
  | delete_element i =>
      unfold applyElementPatch
      rw [map_normElem_filter_id, map_normElem_filter_id]
      exact h.filter _
  | set_app_state p0 => exact h
  | upsert_files f => exact h

theorem applyAppStatePatch_congr {a b : Obj} (h : ObjEq a b) (p : DrawingPatch) :
    ObjEq (applyAppStatePatch a p) (applyAppStatePatch b p) := by
  cases p <;> first
    | exact h
    | exact omerge_congr_left h _

theorem applyFilesPatch_congr {a b : Obj} (h : ObjEq a b) (p : DrawingPatch) :
    ObjEq (applyFilesPatch a p) (applyFilesPatch b p) := by
  cases p <;> first
    | exact h
    | exact omerge_congr_left h _

theorem applyPatches_permCongr {S T : DrawingScene} (h : ScenePermEq S T)
    (ps : List DrawingPatch) :
    ScenePermEq (applyPatches S ps) (applyPatches T ps) := by
  induction ps generalizing S T with
  | nil => exact h
  | cons p ps ih =>
      rw [applyPatches_cons S, applyPatches_cons T]
      exact ih ⟨applyElementPatch_permCongr h.1 p,
        applyAppStatePatch_congr h.2.1 p, applyFilesPatch_congr h.2.2 p⟩

/-! ## Forward/inverse roundtrips for single recorded actions -/

theorem roundtrip_add (T : DrawingScene) (el : DrawingElement)
    (h : ∀ e ∈ T.elements, e.id ≠ el.id) :
    applyPatches (applyPatches T [.add_element el]) [.delete_element el.id] = T := by
  obtain ⟨did, els, app, fil⟩ := T
  have h2 : (els ++ [el]).filter (fun e => decide (e.id ≠ el.id)) = els := by
    rw [List.filter_append,
      List.filter_eq_self.mpr (fun e he => by simpa using h e he)]
    simp
  have h3 : ∀ a ∈ els, ¬ a.id = el.id := fun a ha => h a ha
  simp [applyPatches, applyElementPatch, applyAppStatePatch, applyFilesPatch,
    h2]
  exact h3

theorem roundtrip_update (T : DrawingScene) (i : String) (p : Obj)
    (b : DrawingElement) (hmatch : ∀ e ∈ T.elements, e.id = i → ElemEq b e) :
    SceneEq (applyPatches (applyPatches T [.update_element i p])
        [.update_element i (extractReversePatch b p)]) T := by
  refine ⟨?_, objEq_refl _, objEq_refl _⟩
  show ElemsEq (applyElementPatch (applyElementPatch T.elements
      (.update_element i p)) (.update_element i (extractReversePatch b p)))
    T.elements
  unfold ElemsEq applyElementPatch
  rw [List.map_map, List.map_map]
  refine List.map_congr_left (fun e he => ?_)
  simp only [Function.comp]
  by_cases hc : e.id = i
  · rw [if_pos hc, if_pos (show (mergeElement e p).id = i from hc)]
    have h1 := merge_extract_roundtrip_elem b e p (hmatch e he hc)
    unfold ElemEq at h1
    exact h1
  · rw [if_neg hc, if_neg (show ¬ (e.id = i) from hc)]

theorem perm_filter_extract {l : List DrawingElement} {i : String}
    {x : DrawingElement} (hU : UniqueIds l) (hx : x ∈ l) (hxi : x.id = i) :
    (l.filter (fun el => decide (el.id ≠ i)) ++ [x]).Perm l := by
  induction l with
  | nil => cases hx
  | cons a rest ih =>
      have hU1 : a.id ∉ rest.map DrawingElement.id := by
        unfold UniqueIds at hU
        rw [List.map_cons, List.nodup_cons] at hU
        exact hU.1
      have hU2 : UniqueIds rest := by
        unfold UniqueIds at hU ⊢
        rw [List.map_cons, List.nodup_cons] at hU
        exact hU.2
      rcases List.mem_cons.mp hx with rfl | hx2
      · have hfil : rest.filter (fun el => decide (el.id ≠ i)) = rest := by
          refine List.filter_eq_self.mpr (fun e he => ?_)
          have hne : e.id ≠ x.id := by
            intro hh
            exact hU1 (by rw [← hh]; exact List.mem_map_of_mem _ he)
          simp [hxi ▸ hne]
        rw [List.filter_cons, show decide (x.id ≠ i) = false by simp [hxi], hfil]
        exact List.perm_append_singleton x rest
      · have hane : a.id ≠ i := by
          intro hh
          exact hU1 (by rw [hh, ← hxi]; exact List.mem_map_of_mem _ hx2)
        rw [List.filter_cons, show decide (a.id ≠ i) = true by simp [hane]]
        exact (ih hU2 hx2).cons a

theorem roundtrip_delete (T : DrawingScene) (i : String) (rm : DrawingElement)
    (hU : UniqueIds T.elements) (e : DrawingElement) (he : e ∈ T.elements)
    (hei : e.id = i) (hrm : ElemEq rm e) :
    ScenePermEq (applyPatches (applyPatches T [.delete_element i])
        [.add_element rm]) T := by
  refine ⟨?_, objEq_refl _, objEq_refl _⟩
  show ElemsPermEq (applyElementPatch T.elements (.delete_element i) ++ [rm])
    T.elements
  unfold ElemsPermEq applyElementPatch
  rw [List.map_append, map_normElem_filter_id]
  have hrm2 : normElem rm = normElem e := hrm
  simp only [List.map_cons, List.map_nil, hrm2]
  exact perm_filter_extract (uniqueIds_map_normElem hU)
    (List.mem_map_of_mem _ he) (show (normElem e).id = i from hei)

theorem roundtrip_setApp (T : DrawingScene) (p : Obj) (prev : Obj)
    (hprev : ObjEq prev T.appState) :
    SceneEq (applyPatches (applyPatches T [.set_app_state p])
        [.set_app_state (extractReversePatchObj prev p)]) T := by
  refine ⟨elemsEq_refl _, ?_, objEq_refl _⟩
  show ObjEq (omerge (omerge T.appState p) (extractReversePatchObj prev p))
    T.appState
  exact extract_merge_roundtrip2 p hprev

/-! ## First-match engine helpers vs. the pure applier -/

theorem map_if_no_match {l : List DrawingElement} {i : String} (p : Obj)
    (h : ∀ el ∈ l, el.id ≠ i) :
    l.map (fun el => if el.id = i then mergeElement el p else el) = l := by
  rw [List.map_congr_left (g := fun el => el) (fun el he => by rw [if_neg (h el he)])]
  exact List.map_id' l

theorem updateFirst_fst_none {els : List DrawingElement} {i : String} (p : Obj)
    (h : ∀ el ∈ els, el.id ≠ i) : updateFirst els i p = (none, els) := by
  induction els with
  | nil => rfl
  | cons a rest ih =>
      have ha : ¬ a.id = i := h a (List.mem_cons_self ..)
      simp [updateFirst, ha, ih (fun el he => h el (List.mem_cons_of_mem _ he))]

theorem updateFirst_fst_mem {els : List DrawingElement} {i : String} {p : Obj}
    {b : DrawingElement} (h : (updateFirst els i p).1 = some b) :
    b ∈ els ∧ b.id = i := by
  induction els with
  | nil => simp [updateFirst] at h
  | cons a rest ih =>
      by_cases ha : a.id = i
      · simp [updateFirst, ha] at h
        subst h
        exact ⟨List.mem_cons_self .., ha⟩
      · simp only [updateFirst, if_neg ha] at h
        obtain ⟨h1, h2⟩ := ih h
        exact ⟨List.mem_cons_of_mem _ h1, h2⟩

theorem updateFirst_snd_map {els : List DrawingElement} (hU : UniqueIds els)
    (i : String) (p : Obj) :
    (updateFirst els i p).2 = applyElementPatch els (.update_element i p) := by
  induction els with
  | nil => rfl
  | cons a rest ih =>
      have hU1 : a.id ∉ rest.map DrawingElement.id := by
        unfold UniqueIds at hU
        rw [List.map_cons, List.nodup_cons] at hU
        exact hU.1
      have hU2 : UniqueIds rest := by
        unfold UniqueIds at hU ⊢
        rw [List.map_cons, List.nodup_cons] at hU
        exact hU.2
      simp only [applyElementPatch]
      by_cases ha : a.id = i
      · have hrest : ∀ el ∈ rest, el.id ≠ i := by
          intro el he hh
          exact hU1 (by rw [ha, ← hh]; exact List.mem_map_of_mem _ he)
        simp only [updateFirst, if_pos ha, List.map_cons]
        rw [map_if_no_match p hrest]
      · simp only [updateFirst, if_neg ha, List.map_cons]
        have h2 := ih hU2
        simp only [applyElementPatch] at h2
        rw [h2]

theorem deleteFirst_fst_none {els : List DrawingElement} {i : String}
    (h : ∀ el ∈ els, el.id ≠ i) : deleteFirst els i = (none, els) := by
  induction els with
  | nil => rfl
  | cons a rest ih =>
      have ha : ¬ a.id = i := h a (List.mem_cons_self ..)
      simp [deleteFirst, ha, ih (fun el he => h el (List.mem_cons_of_mem _ he))]

theorem deleteFirst_fst_mem {els : List DrawingElement} {i : String}
    {rm : DrawingElement} (h : (deleteFirst els i).1 = some rm) :
    rm ∈ els ∧ rm.id = i := by
  induction els with
  | nil => simp [deleteFirst] at h
  | cons a rest ih =>
      by_cases ha : a.id = i
      · simp [deleteFirst, ha] at h
        subst h
        exact ⟨List.mem_cons_self .., ha⟩
      · simp only [deleteFirst, if_neg ha] at h
        obtain ⟨h1, h2⟩ := ih h
        exact ⟨List.mem_cons_of_mem _ h1, h2⟩

theorem deleteFirst_snd_filter {els : List DrawingElement} (hU : UniqueIds els)
    (i : String) :
    (deleteFirst els i).2 = applyElementPatch els (.delete_element i) := by
  induction els with
  | nil => rfl
  | cons a rest ih =>
      have hU1 : a.id ∉ rest.map DrawingElement.id := by
        unfold UniqueIds at hU
        rw [List.map_cons, List.nodup_cons] at hU
        exact hU.1
      have hU2 : UniqueIds rest := by
        unfold UniqueIds at hU ⊢
        rw [List.map_cons, List.nodup_cons] at hU
        exact hU.2
      simp only [applyElementPatch]
      by_cases ha : a.id = i
      · have hrest : ∀ el ∈ rest, el.id ≠ i := by
          intro el he hh
          exact hU1 (by rw [ha, ← hh]; exact List.mem_map_of_mem _ he)
        have hfil : List.filter (fun el => decide (el.id ≠ i)) (a :: rest) = rest := by
          rw [List.filter_cons, show decide (a.id ≠ i) = false by simp [ha]]
          simp only [Bool.false_eq_true, if_false]
          exact List.filter_eq_self.mpr (fun e he => by simpa using hrest e he)
        simp only [deleteFirst, if_pos ha]
        exact hfil.symm
      · simp only [deleteFirst, if_neg ha]
        rw [List.filter_cons, show decide (a.id ≠ i) = true by simp [ha]]
        simp only [if_true]
        have h2 := ih hU2
        simp only [applyElementPatch] at h2
        rw [h2]

/-! ## Recorder bookkeeping -/

theorem record_actions (r : ActionRecorder) (g : String) (t : Int)
    (f i : List DrawingPatch) :
    (r.record g t f i).actions =
      jsSliceEnd r.actions (r.historyState.undoCursor + 1) ++
        [⟨r.drawingId, g, f, i, t⟩] := rfl

theorem record_historyState (r : ActionRecorder) (g : String) (t : Int)
    (f i : List DrawingPatch) :
    (r.record g t f i).historyState =
      ⟨r.historyState.actionCount, r.historyState.actionCount + 1⟩ := rfl

theorem record_drawingId (r : ActionRecorder) (g : String) (t : Int)
    (f i : List DrawingPatch) : (r.record g t f i).drawingId = r.drawingId := rfl

theorem jsSliceEnd_all {l : List DrawingAction} {e : Int}
    (h : (l.length : Int) ≤ e) : jsSliceEnd l e = l := by
  unfold jsSliceEnd
  rw [if_neg (by omega)]
  exact List.take_of_length_le (by omega)

theorem jsSliceEnd_take {l : List DrawingAction} {e : Int} (h : 0 ≤ e) :
    jsSliceEnd l e = l.take e.toNat := by
  unfold jsSliceEnd
  rw [if_neg (by omega)]

theorem jsGet_none_of_ge {l : List DrawingAction} {i : Int}
    (h : (l.length : Int) ≤ i) : jsGet l i = none := by
  unfold jsGet
  rw [if_neg (by omega)]
  exact List.get?_eq_none.mpr (by omega)

theorem jsGet_eq_get {l : List DrawingAction} {i : Int} (h : 0 ≤ i) :
    jsGet l i = l.get? i.toNat := by
  unfold jsGet
  rw [if_neg (by omega)]

theorem record_actions_clean {r : ActionRecorder} (g : String) (t : Int)
    (f i : List DrawingPatch)
    (hend : r.historyState.undoCursor + 1 = (r.actions.length : Int)) :
    (r.record g t f i).actions = r.actions ++ [⟨r.drawingId, g, f, i, t⟩] := by
  rw [record_actions, hend, jsSliceEnd_all (by omega)]

/-! ## Recorder undo/redo unfolding -/

theorem recorder_undo_none {r : ActionRecorder} (h : (r.undo).1 = none) :
    (r.undo).2 = r := by
  unfold ActionRecorder.undo at *
  by_cases hc : canUndo r.historyState = true
  · rw [if_pos hc] at *
    rcases hg : jsGet r.actions r.historyState.undoCursor with _ | a
    · rfl
    · rw [hg] at h
      simp at h
  · rw [if_neg hc] at *

theorem recorder_undo_nocan {r : ActionRecorder}
    (h : ¬ canUndo r.historyState = true) : r.undo = (none, r) := by
  unfold ActionRecorder.undo
  rw [if_neg h]

theorem recorder_undo_noget {r : ActionRecorder}
    (h : jsGet r.actions r.historyState.undoCursor = none) :
    r.undo = (none, r) := by
  unfold ActionRecorder.undo
  by_cases hc : canUndo r.historyState = true
  · rw [if_pos hc, h]
  · rw [if_neg hc]

theorem recorder_undo_some {r : ActionRecorder} {a : DrawingAction}
    (hcan : canUndo r.historyState = true)
    (hget : jsGet r.actions r.historyState.undoCursor = some a) :
    r.undo = (some a.inverse,
      { r with historyState := undoHistoryState r.historyState }) := by
  unfold ActionRecorder.undo
  rw [if_pos hcan, hget]

theorem recorder_redo_none {r : ActionRecorder} (h : (r.redo).1 = none) :
    (r.redo).2 = r := by
  unfold ActionRecorder.redo at *
  by_cases hc : canRedo r.historyState = true
  · rw [if_pos hc] at *
    rcases hg : jsGet r.actions (r.historyState.undoCursor + 1) with _ | a
    · rfl
    · rw [hg] at h
      simp at h
  · rw [if_neg hc] at *

theorem recorder_redo_nocan {r : ActionRecorder}
    (h : ¬ canRedo r.historyState = true) : r.redo = (none, r) := by
  unfold ActionRecorder.redo
  rw [if_neg h]

theorem recorder_redo_noget {r : ActionRecorder}
    (h : jsGet r.actions (r.historyState.undoCursor + 1) = none) :
    r.redo = (none, r) := by
  unfold ActionRecorder.redo
  by_cases hc : canRedo r.historyState = true
  · rw [if_pos hc, h]
  · rw [if_neg hc]

theorem recorder_redo_some {r : ActionRecorder} {a : DrawingAction}
    (hcan : canRedo r.historyState = true)
    (hget : jsGet r.actions (r.historyState.undoCursor + 1) = some a) :
    r.redo = (some a.forward,
      { r with historyState := redoHistoryState r.historyState }) := by
  unfold ActionRecorder.redo
  rw [if_pos hcan, hget]

/-! ## Controller step unfolding -/

theorem applyPatches_drawingId (s : DrawingScene) (ps : List DrawingPatch) :
    (applyPatches s ps).drawingId = s.drawingId := by
  induction ps generalizing s with
  | nil => rfl
  | cons p ps ih =>
      rw [applyPatches_cons, ih]
      rfl

theorem rebuild_scene (c : DrawingBlockController) (pt : List DrawingPatch) :
    engScene (rebuildFromPatches c pt) = applyPatches (engScene c) pt := by
  have hd : (applyPatches (engScene c) pt).drawingId = c.drawingId :=
    applyPatches_drawingId (engScene c) pt
  show (⟨c.drawingId, (applyPatches (engScene c) pt).elements,
      (applyPatches (engScene c) pt).appState,
      (applyPatches (engScene c) pt).files⟩ : DrawingScene) =
    applyPatches (engScene c) pt
  rw [← hd]

theorem rebuild_recorder (c : DrawingBlockController) (pt : List DrawingPatch) :
    (rebuildFromPatches c pt).recorder = c.recorder := rfl

theorem rebuild_drawingId (c : DrawingBlockController) (pt : List DrawingPatch) :
    (rebuildFromPatches c pt).drawingId = c.drawingId := rfl

theorem ctrl_undo_none (c : DrawingBlockController)
    (h : (c.recorder.undo).1 = none) : c.undo = (false, c) := by
  unfold DrawingBlockController.undo
  rcases hu : c.recorder.undo with ⟨pt, r2⟩
  have hr : r2 = c.recorder := by
    have := recorder_undo_none h
    rw [hu] at this
    exact this
  rw [hu] at h
  simp only at h
  subst h
  rw [hr]

theorem ctrl_undo_some (c : DrawingBlockController) {pt : List DrawingPatch}
    {r2 : ActionRecorder} (h : c.recorder.undo = (some pt, r2)) :
    c.undo = (true,
      { rebuildFromPatches c pt with recorder := r2, emits := c.emits + 1 }) := by
  unfold DrawingBlockController.undo
  rw [h]

theorem ctrl_redo_none (c : DrawingBlockController)
    (h : (c.recorder.redo).1 = none) : c.redo = (false, c) := by
  unfold DrawingBlockController.redo
  rcases hu : c.recorder.redo with ⟨pt, r2⟩
  have hr : r2 = c.recorder := by
    have := recorder_redo_none h
    rw [hu] at this
    exact this
  rw [hu] at h
  simp only at h
  subst h
  rw [hr]

theorem ctrl_redo_some (c : DrawingBlockController) {pt : List DrawingPatch}
    {r2 : ActionRecorder} (h : c.recorder.redo = (some pt, r2)) :
    c.redo = (true,
      { rebuildFromPatches c pt with recorder := r2, emits := c.emits + 1 }) := by
  unfold DrawingBlockController.redo
  rw [h]

theorem mutStep_add (c : DrawingBlockController) (el : DrawingElement)
    (g : String) (t : Int) :
    mutStep c (.addElement el) g t =
      { c with
          engine := { c.engine with
            elements := c.engine.elements ++ [el]
            trace := c.engine.trace ++
              [EngineEvent.elementsChange (c.engine.elements ++ [el])] }
          recorder := c.recorder.record g t [.add_element el]
            [.delete_element el.id]
          emits := c.emits + 1 } := rfl

theorem mutStep_setApp (c : DrawingBlockController) (p : Obj) (g : String)
    (t : Int) :
    mutStep c (.setAppState p) g t =
      { c with
          engine := { c.engine with appState := omerge c.engine.appState p }
          recorder := c.recorder.record g t [.set_app_state p]
            [.set_app_state (extractReversePatchObj c.engine.appState p)]
          emits := c.emits + 1 } := rfl

theorem mutStep_upsert (c : DrawingBlockController) (f : DrawingFiles)
    (g : String) (t : Int) :
    mutStep c (.upsertFiles f) g t =
      { c with
          engine := { c.engine with files := omerge c.engine.files f }
          recorder := c.recorder.record g t [.upsert_files f] [.upsert_files []]
          emits := c.emits + 1 } := rfl

theorem mutStep_update_miss (c : DrawingBlockController) (i : String) (p : Obj)
    (g : String) (t : Int) {els2 : List DrawingElement}
    (h : updateFirst c.engine.elements i p = (none, els2)) :
    mutStep c (.updateElement i p) g t = c := by
  simp only [mutStep, DrawingBlockController.updateElement,
    DefaultDrawingEngine.updateElement]
  rw [h]

theorem mutStep_update_hit (c : DrawingBlockController) (i : String) (p : Obj)
    (g : String) (t : Int) {b : DrawingElement} {els2 : List DrawingElement}
    (h : updateFirst c.engine.elements i p = (some b, els2)) :
    mutStep c (.updateElement i p) g t =
      { c with
          engine := { c.engine with
            elements := els2
            trace := c.engine.trace ++ [EngineEvent.elementsChange els2] }
          recorder := c.recorder.record g t [.update_element i p]
            [.update_element i (extractReversePatch b p)]
          emits := c.emits + 1 } := by
  simp only [mutStep, DrawingBlockController.updateElement,
    DefaultDrawingEngine.updateElement, DefaultDrawingEngine.emitElementsChange]
  rw [h]

theorem mutStep_delete_miss (c : DrawingBlockController) (i : String)
    (g : String) (t : Int) {els2 : List DrawingElement}
    (h : deleteFirst c.engine.elements i = (none, els2)) :
    mutStep c (.deleteElement i) g t = c := by
  simp only [mutStep, DrawingBlockController.deleteElement,
    DefaultDrawingEngine.deleteElement]
  rw [h]

theorem mutStep_delete_hit (c : DrawingBlockController) (i : String)
    (g : String) (t : Int) {rm : DrawingElement} {els2 : List DrawingElement}
    (h : deleteFirst c.engine.elements i = (some rm, els2)) :
    mutStep c (.deleteElement i) g t =
      { c with
          engine := { c.engine with
            elements := els2
            selectedIds := c.engine.selectedIds.erase i
            trace := c.engine.trace ++ [EngineEvent.elementsChange els2] }
          recorder := c.recorder.record g t [.delete_element i]
            [.add_element rm]
          emits := c.emits + 1 } := by
  simp only [mutStep, DrawingBlockController.deleteElement,
    DefaultDrawingEngine.deleteElement, DefaultDrawingEngine.emitElementsChange]
  rw [h]

/-! ## Replay lemmas -/

theorem applyPatchLists_cons (s : DrawingScene) (l : List DrawingPatch)
    (ls : List (List DrawingPatch)) :
    applyPatchLists s (l :: ls) = applyPatchLists (applyPatches s l) ls := rfl

theorem applyPatchLists_permCongr {S T : DrawingScene} (h : ScenePermEq S T)
    (ls : List (List DrawingPatch)) :
    ScenePermEq (applyPatchLists S ls) (applyPatchLists T ls) := by
  induction ls generalizing S T with
  | nil => exact h
  | cons l ls ih => exact ih (applyPatches_permCongr h l)

theorem replayTo_zero (S0 : DrawingScene) (acts : List DrawingAction) :
    replayTo S0 acts 0 = S0 := rfl

theorem replayTo_mono (S0 : DrawingScene) (acts acts2 : List DrawingAction)
    {m : Nat} (h : m ≤ acts.length) :
    replayTo S0 (acts ++ acts2) m = replayTo S0 acts m := by
  unfold replayTo
  rw [List.take_append_of_le_length h]

theorem replayTo_length (S0 : DrawingScene) (acts : List DrawingAction) :
    replayTo S0 acts acts.length =
      applyPatchLists S0 (acts.map DrawingAction.forward) := by
  unfold replayTo
  rw [List.take_length]

theorem replayTo_over (S0 : DrawingScene) (acts : List DrawingAction)
    {m : Nat} (h : acts.length ≤ m) :
    replayTo S0 acts m = replayTo S0 acts acts.length := by
  unfold replayTo
  rw [List.take_of_length_le h, List.take_length]

theorem replayTo_succ (S0 : DrawingScene) (acts : List DrawingAction)
    {k : Nat} {a : DrawingAction} (h : acts.get? k = some a) :
    replayTo S0 acts (k + 1) = applyPatches (replayTo S0 acts k) a.forward := by
  unfold replayTo
  rw [List.take_succ]
  rw [List.get?_eq_getElem?] at h
  rw [h]
  unfold applyPatchLists
  rw [List.map_append, List.foldl_append]
  rfl

theorem replayTo_snoc (S0 : DrawingScene) (acts : List DrawingAction)
    (a : DrawingAction) :
    replayTo S0 (acts ++ [a]) (acts.length + 1) =
      applyPatches (replayTo S0 acts acts.length) a.forward := by
  have h : (acts ++ [a]).get? acts.length = some a := List.get?_concat_length acts a
  rw [replayTo_succ S0 (acts ++ [a]) h, replayTo_mono S0 acts [a] (le_refl _)]

/-- Applying the inverse patch lists of the first `n` recorded actions in
reverse order to the replay of those `n` actions restores the base scene. -/
theorem rollback_aux (S0 : DrawingScene) (acts : List DrawingAction)
    (hrt : ∀ k, RoundTripAt S0 acts k) :
    ∀ n : Nat, n ≤ acts.length →
      ScenePermEq
        (applyPatchLists (replayTo S0 acts n)
          (((acts.take n).reverse).map DrawingAction.inverse))
        S0 := by
  intro n
  induction n with
  | zero => intro _; exact scenePermEq_refl _
  | succ k ih =>
      intro h
      have hk : k < acts.length := by omega
      obtain ⟨a, ha⟩ : ∃ a, acts.get? k = some a := by
        rw [List.get?_eq_get hk]
        exact ⟨_, rfl⟩
      have hrev : ((acts.take (k + 1)).reverse).map DrawingAction.inverse =
          a.inverse :: ((acts.take k).reverse).map DrawingAction.inverse := by
        rw [List.take_succ]
        have h2 : acts[k]? = some a := by rwa [List.get?_eq_getElem?] at ha
        rw [h2]
        simp
      rw [hrev, applyPatchLists_cons]
      exact scenePermEq_trans
        (applyPatchLists_permCongr (hrt k a ha) _)
        (ih (by omega))

/-! ## The mutating-run invariant -/

theorem mutRunInv_record (S0 : DrawingScene) (c c2 : DrawingBlockController)
    (fwd inv : List DrawingPatch) (g : String) (t : Int)
    (hinv : MutRunInv S0 c)
    (heng : engScene c2 = applyPatches (engScene c) fwd)
    (hrec : c2.recorder = c.recorder.record g t fwd inv)
    (hrt : ScenePermEq (applyPatches (applyPatches (engScene c) fwd) inv)
      (engScene c))
    (huniq : UniqueIds (applyPatches (engScene c) fwd).elements) :
    MutRunInv S0 c2 := by
  obtain ⟨hc1, hc2, hc3, hrtold, hun⟩ := hinv
  have hacts2 : c2.recorder.actions =
      c.recorder.actions ++ [⟨c.recorder.drawingId, g, fwd, inv, t⟩] := by
    rw [hrec, record_actions_clean _ _ _ _ hc1]
  have hhs2 : c2.recorder.historyState =
      ⟨c.recorder.historyState.actionCount,
        c.recorder.historyState.actionCount + 1⟩ := by
    rw [hrec]
    rfl
  have hlen2 : c2.recorder.actions.length = c.recorder.actions.length + 1 := by
    rw [hacts2]
    simp
  refine ⟨?_, ?_, ?_, ?_, ?_⟩
  · rw [hhs2, hlen2]
    push_cast
    omega
  · rw [hhs2, hlen2]
    push_cast
    omega
  · rw [hacts2, show (c.recorder.actions ++
        [(⟨c.recorder.drawingId, g, fwd, inv, t⟩ : DrawingAction)]).length =
        c.recorder.actions.length + 1 from by simp,
      replayTo_snoc S0 c.recorder.actions _]
    rw [show (⟨c.recorder.drawingId, g, fwd, inv, t⟩ : DrawingAction).forward =
        fwd from rfl]
    rw [← hc3]
    exact heng
  · intro k a hget
    rw [hacts2] at hget ⊢
    have hklt : k < c.recorder.actions.length + 1 := by
      obtain ⟨hlt, -⟩ := List.get?_eq_some.mp hget
      simpa using hlt
    by_cases hkn : k < c.recorder.actions.length
    · have hget2 : c.recorder.actions.get? k = some a := by
        rwa [List.get?_append hkn] at hget
      have h1 := hrtold k a hget2
      rw [replayTo_mono S0 c.recorder.actions _ (by omega),
        replayTo_mono S0 c.recorder.actions _ (by omega)]
      exact h1
    · have hkn2 : k = c.recorder.actions.length := by omega
      subst hkn2
      rw [List.get?_concat_length] at hget
      have ha : a = ⟨c.recorder.drawingId, g, fwd, inv, t⟩ := by
        cases hget
        rfl
      subst ha
      rw [replayTo_snoc S0 c.recorder.actions _,
        replayTo_mono S0 c.recorder.actions _ (le_refl _)]
      rw [show (⟨c.recorder.drawingId, g, fwd, inv, t⟩ : DrawingAction).forward =
          fwd from rfl,
        show (⟨c.recorder.drawingId, g, fwd, inv, t⟩ : DrawingAction).inverse =
          inv from rfl]
      rw [← hc3]
      exact hrt
  · intro m
    rw [hacts2]
    by_cases hm : m ≤ c.recorder.actions.length
    · rw [replayTo_mono S0 c.recorder.actions _ hm]
      exact hun m
    · rw [replayTo_over S0 _ (show (c.recorder.actions ++
          [(⟨c.recorder.drawingId, g, fwd, inv, t⟩ : DrawingAction)]).length ≤ m
          from by simp; omega)]
      rw [show (c.recorder.actions ++
          [(⟨c.recorder.drawingId, g, fwd, inv, t⟩ : DrawingAction)]).length =
          c.recorder.actions.length + 1 from by simp,
        replayTo_snoc S0 c.recorder.actions _]
      rw [show (⟨c.recorder.drawingId, g, fwd, inv, t⟩ : DrawingAction).forward =
          fwd from rfl]
      rw [← hc3]
      exact huniq

theorem mutRunInv_uniq_engine (S0 : DrawingScene) (c : DrawingBlockController)
    (hinv : MutRunInv S0 c) : UniqueIds c.engine.elements := by
  obtain ⟨-, -, hc3, -, hun⟩ := hinv
  have h : c.engine.elements =
      (replayTo S0 c.recorder.actions c.recorder.actions.length).elements :=
    congrArg DrawingScene.elements hc3
  rw [h]
  exact hun _

theorem mutRunInv_step (S0 : DrawingScene) (c : DrawingBlockController)
    (op : MutOp) (g : String) (t : Int) (hinv : MutRunInv S0 c)
    (hok : stepOK c (.mutate op g t) = true) :
    MutRunInv S0 (mutStep c op g t) := by
  have hUeng : UniqueIds c.engine.elements := mutRunInv_uniq_engine S0 c hinv
  cases op with
  | addElement el =>
      have hfresh : ∀ e ∈ c.engine.elements, e.id ≠ el.id := by
        simp only [stepOK, freshId, List.all_eq_true, decide_eq_true_eq] at hok
        exact hok
      refine mutRunInv_record S0 c _ [.add_element el] [.delete_element el.id]
        g t hinv ?_ ?_ ?_ ?_
      · rw [mutStep_add]
        rfl
      · rw [mutStep_add]
      · rw [roundtrip_add (engScene c) el hfresh]
        exact scenePermEq_refl _
      · exact uniq_add hUeng el hfresh
  | updateElement i p =>
      rcases hu : updateFirst c.engine.elements i p with ⟨fst, els2⟩
      cases fst with
      | none =>
          rw [mutStep_update_miss c i p g t hu]
          exact hinv
      | some b =>
          have h1 : (updateFirst c.engine.elements i p).1 = some b := by
            rw [hu]
          obtain ⟨hbmem, hbid⟩ := updateFirst_fst_mem h1
          have hsnd : els2 =
              applyElementPatch c.engine.elements (.update_element i p) := by
            have h2 := updateFirst_snd_map hUeng i p
            rw [hu] at h2
            exact h2
          refine mutRunInv_record S0 c _ [.update_element i p]
            [.update_element i (extractReversePatch b p)] g t hinv ?_ ?_ ?_ ?_
          · rw [mutStep_update_hit c i p g t hu]
            show (⟨c.drawingId, els2, c.engine.appState, c.engine.files⟩ :
              DrawingScene) = _
            rw [hsnd]
            rfl
          · rw [mutStep_update_hit c i p g t hu]
          · have hmatch : ∀ e ∈ (engScene c).elements, e.id = i → ElemEq b e := by
              intro e he hei
              have hbe : e = b :=
                eq_of_mem_same_id hUeng he hbmem (by rw [hei, hbid])
              rw [hbe]
              exact elemEq_refl b
            exact scenePermEq_of_sceneEq (roundtrip_update (engScene c) i p b hmatch)
          · exact uniq_update hUeng i p
  | deleteElement i =>
      rcases hu : deleteFirst c.engine.elements i with ⟨fst, els2⟩
      cases fst with
      | none =>
          rw [mutStep_delete_miss c i g t hu]
          exact hinv
      | some rm =>
          have h1 : (deleteFirst c.engine.elements i).1 = some rm := by
            rw [hu]
          obtain ⟨hmem, hid⟩ := deleteFirst_fst_mem h1
          have hsnd : els2 =
              applyElementPatch c.engine.elements (.delete_element i) := by
            have h2 := deleteFirst_snd_filter hUeng i
            rw [hu] at h2
            exact h2
          refine mutRunInv_record S0 c _ [.delete_element i] [.add_element rm]
            g t hinv ?_ ?_ ?_ ?_
          · rw [mutStep_delete_hit c i g t hu]
            show (⟨c.drawingId, els2, c.engine.appState, c.engine.files⟩ :
              DrawingScene) = _
            rw [hsnd]
            rfl
          · rw [mutStep_delete_hit c i g t hu]
          · exact roundtrip_delete (engScene c) i rm hUeng rm hmem hid
              (elemEq_refl rm)
          · exact uniq_delete hUeng i
  | setAppState p =>
      refine mutRunInv_record S0 c _ [.set_app_state p]
        [.set_app_state (extractReversePatchObj c.engine.appState p)] g t hinv
        ?_ ?_ ?_ ?_
      · rw [mutStep_setApp]
        rfl
      · rw [mutStep_setApp]
      · exact scenePermEq_of_sceneEq
          (roundtrip_setApp (engScene c) p c.engine.appState (objEq_refl _))
      · exact hUeng
  | upsertFiles f =>
      simp [stepOK] at hok

theorem mutRunInv_init (S0 : DrawingScene) (hU : UniqueIds S0.elements) :
    MutRunInv S0 (initCtrl S0) := by
  refine ⟨?_, ?_, ?_, ?_, ?_⟩
  · rfl
  · rfl
  · rfl
  · intro k a hget
    simp [initCtrl, DrawingBlockController.make, ActionRecorder.make,
      DrawingBlockController.loadScene, ActionRecorder.load] at hget
  · intro m
    simpa [initCtrl, DrawingBlockController.make, ActionRecorder.make,
      DrawingBlockController.loadScene, ActionRecorder.load, replayTo,
      applyPatchLists] using hU

theorem mutRunInv_run (S0 : DrawingScene) :
    ∀ (ops : List (MutOp × String × Int)) (c : DrawingBlockController),
      MutRunInv S0 c →
      goodSteps c (ops.map fun x => CtrlStep.mutate x.1 x.2.1 x.2.2) = true →
      MutRunInv S0 (runSteps c (ops.map fun x => CtrlStep.mutate x.1 x.2.1 x.2.2)) := by
  intro ops
  induction ops with
  | nil =>
      intro c h _
      exact h
  | cons x rest ih =>
      intro c h hg
      simp only [List.map_cons, goodSteps, Bool.and_eq_true] at hg
      show MutRunInv S0
        (runSteps (mutStep c x.1 x.2.1 x.2.2) (rest.map fun x => CtrlStep.mutate x.1 x.2.1 x.2.2))
      exact ih _ (mutRunInv_step S0 c x.1 x.2.1 x.2.2 h hg.1) hg.2

/-! ## The general controller invariant (clean or corrupted states) -/

theorem mem_transport {l m : List DrawingElement} (h : ElemsPermEq l m)
    {b : DrawingElement} (hb : b ∈ l) : ∃ e ∈ m, ElemEq b e := by
  have h1 : normElem b ∈ l.map normElem := List.mem_map_of_mem _ hb
  have h2 : normElem b ∈ m.map normElem := by
    unfold ElemsPermEq at h
    exact h.mem_iff.mp h1
  obtain ⟨e, he, heq⟩ := List.mem_map.mp h2
  refine ⟨e, he, ?_⟩
  unfold ElemEq
  exact heq.symm

theorem elemsPermEq_symm {l m : List DrawingElement} (h : ElemsPermEq l m) :
    ElemsPermEq m l := by
  unfold ElemsPermEq at *
  exact h.symm

theorem ctrlClean_uniq_engine (S0 : DrawingScene) (c : DrawingBlockController)
    (h : CtrlClean S0 c) : UniqueIds c.engine.elements := by
  obtain ⟨-, -, -, hscene, -, hun⟩ := h
  exact uniqueIds_transport (elemsPermEq_symm hscene.1) (hun _)

theorem record_len_nonneg {r : ActionRecorder} (g : String) (t : Int)
    (f i : List DrawingPatch) (h : -1 ≤ r.historyState.undoCursor) :
    ((r.record g t f i).actions.length : Int) =
      min (r.historyState.undoCursor + 1) (r.actions.length : Int) + 1 := by
  rw [record_actions, jsSliceEnd_take (by omega)]
  simp only [List.length_append, List.length_take, List.length_cons,
    List.length_nil]
  have h1 : ((r.historyState.undoCursor + 1).toNat : Int) =
      r.historyState.undoCursor + 1 := Int.toNat_of_nonneg (by omega)
  push_cast
  omega

/-- `record()` from a clean state whose cursor sits at the log's end keeps
the controller clean and appends the new action. -/
theorem ctrlClean_record (S0 : DrawingScene) (c c2 : DrawingBlockController)
    (fwd inv : List DrawingPatch) (g : String) (t : Int)
    (hinv : CtrlClean S0 c)
    (hcend : c.recorder.historyState.undoCursor =
      c.recorder.historyState.actionCount - 1)
    (heng : engScene c2 = applyPatches (engScene c) fwd)
    (hrec : c2.recorder = c.recorder.record g t fwd inv)
    (hrt2 : ∀ T, ScenePermEq (engScene c) T → UniqueIds T.elements →
      ScenePermEq (applyPatches (applyPatches T fwd) inv) T)
    (huniq2 : ∀ T, ScenePermEq (engScene c) T → UniqueIds T.elements →
      UniqueIds (applyPatches T fwd).elements) :
    CtrlClean S0 c2 := by
  obtain ⟨hc1, hc2, hc3, hscene, hrtold, hun⟩ := hinv
  have hend : c.recorder.historyState.undoCursor + 1 =
      (c.recorder.actions.length : Int) := by omega
  have hacts2 : c2.recorder.actions =
      c.recorder.actions ++ [⟨c.recorder.drawingId, g, fwd, inv, t⟩] := by
    rw [hrec, record_actions_clean _ _ _ _ hend]
  have hhs2 : c2.recorder.historyState =
      ⟨c.recorder.historyState.actionCount,
        c.recorder.historyState.actionCount + 1⟩ := by
    rw [hrec]
    rfl
  have hlen2 : c2.recorder.actions.length = c.recorder.actions.length + 1 := by
    rw [hacts2]
    simp
  have hcurnat : (c.recorder.historyState.undoCursor + 1).toNat =
      c.recorder.actions.length := by omega
  set T := replayTo S0 c.recorder.actions c.recorder.actions.length with hT
  have hsceneT : ScenePermEq (engScene c) T := by
    rw [hT, ← hcurnat]
    exact hscene
  have hTuniq : UniqueIds T.elements := hun _
  refine ⟨?_, ?_, ?_, ?_, ?_, ?_⟩
  · rw [hhs2, hlen2]
    push_cast
    omega
  · rw [hhs2]
    simp only
    omega
  · rw [hhs2]
    simp only
    omega
  · have hcur2 : (c2.recorder.historyState.undoCursor + 1).toNat =
        c.recorder.actions.length + 1 := by
      rw [hhs2]
      simp only
      omega
    rw [hcur2, hacts2, replayTo_snoc S0 c.recorder.actions _]
    rw [show (⟨c.recorder.drawingId, g, fwd, inv, t⟩ : DrawingAction).forward =
        fwd from rfl]
    rw [heng]
    exact applyPatches_permCongr hsceneT fwd
  · intro k a hget
    rw [hacts2] at hget ⊢
    have hklt : k < c.recorder.actions.length + 1 := by
      obtain ⟨hlt, -⟩ := List.get?_eq_some.mp hget
      simpa using hlt
    by_cases hkn : k < c.recorder.actions.length
    · have hget2 : c.recorder.actions.get? k = some a := by
        rwa [List.get?_append hkn] at hget
      have h1 := hrtold k a hget2
      rw [replayTo_mono S0 c.recorder.actions _ (by omega),
        replayTo_mono S0 c.recorder.actions _ (by omega)]
      exact h1
    · have hkn2 : k = c.recorder.actions.length := by omega
      subst hkn2
      rw [List.get?_concat_length] at hget
      have ha : a = ⟨c.recorder.drawingId, g, fwd, inv, t⟩ := by
        cases hget
        rfl
      subst ha
      rw [replayTo_snoc S0 c.recorder.actions _,
        replayTo_mono S0 c.recorder.actions _ (le_refl _)]
      exact hrt2 T hsceneT hTuniq
  · intro m
    rw [hacts2]
    by_cases hm : m ≤ c.recorder.actions.length
    · rw [replayTo_mono S0 c.recorder.actions _ hm]
      exact hun m
    · rw [replayTo_over S0 _ (show (c.recorder.actions ++
          [(⟨c.recorder.drawingId, g, fwd, inv, t⟩ : DrawingAction)]).length ≤ m
          from by simp; omega)]
      rw [show (c.recorder.actions ++
          [(⟨c.recorder.drawingId, g, fwd, inv, t⟩ : DrawingAction)]).length =
          c.recorder.actions.length + 1 from by simp,
        replayTo_snoc S0 c.recorder.actions _]
      exact huniq2 T hsceneT hTuniq

/-- `record()` from a clean state whose cursor is strictly behind the
log's end corrupts the recorder: the cursor runs past the truncated log. -/
theorem ctrlCorrupt_record_behind (c c2 : DrawingBlockController)
    (fwd inv : List DrawingPatch) (g : String) (t : Int)
    (hc1 : (c.recorder.actions.length : Int) =
      c.recorder.historyState.actionCount)
    (hc2 : -1 ≤ c.recorder.historyState.undoCursor)
    (hbehind : c.recorder.historyState.undoCursor <
      c.recorder.historyState.actionCount - 1)
    (hrec : c2.recorder = c.recorder.record g t fwd inv) :
    CtrlCorrupt c2 := by
  have hlen := record_len_nonneg g t fwd inv (r := c.recorder) (by omega)
  have hhs2 : c2.recorder.historyState =
      ⟨c.recorder.historyState.actionCount,
        c.recorder.historyState.actionCount + 1⟩ := by
    rw [hrec]
    rfl
  have hlen2 : ((c2.recorder.actions.length : Int)) =
      min (c.recorder.historyState.undoCursor + 1)
        (c.recorder.actions.length : Int) + 1 := by
    rw [hrec]
    exact hlen
  constructor
  · rw [hhs2]
    simp only
    omega
  · rw [hhs2, hlen2]
    simp only
    omega

/-- `record()` from a corrupted state stays corrupted. -/
theorem ctrlCorrupt_record (c c2 : DrawingBlockController)
    (fwd inv : List DrawingPatch) (g : String) (t : Int)
    (hc : CtrlCorrupt c) (hrec : c2.recorder = c.recorder.record g t fwd inv) :
    CtrlCorrupt c2 := by
  obtain ⟨hcur, hlen⟩ := hc
  have h0 : (0 : Int) ≤ (c.recorder.actions.length : Int) := by positivity
  have hlen2 := record_len_nonneg g t fwd inv (r := c.recorder) (by omega)
  have hhs2 : c2.recorder.historyState =
      ⟨c.recorder.historyState.actionCount,
        c.recorder.historyState.actionCount + 1⟩ := by
    rw [hrec]
    rfl
  constructor
  · rw [hhs2]
    simp only
    omega
  · rw [hhs2, show ((c2.recorder.actions.length : Int)) =
        min (c.recorder.historyState.undoCursor + 1)
          (c.recorder.actions.length : Int) + 1 from by rw [hrec]; exact hlen2]
    simp only
    omega

theorem undoHistoryState_can {s : DrawingHistoryState} (h : canUndo s = true) :
    undoHistoryState s = ⟨s.undoCursor - 1, s.actionCount⟩ := by
  unfold undoHistoryState
  rw [if_pos h]

theorem redoHistoryState_can {s : DrawingHistoryState} (h : canRedo s = true) :
    redoHistoryState s = ⟨s.undoCursor + 1, s.actionCount⟩ := by
  unfold redoHistoryState
  rw [if_pos h]

theorem ctrlInv_undo (S0 : DrawingScene) (c : DrawingBlockController)
    (h : CtrlInv S0 c) : CtrlInv S0 (c.undo).2 := by
  rcases h with hclean | hcorr
  · obtain ⟨hc1, hc2, hc3, hscene, hrt, hun⟩ := hclean
    by_cases hcan : canUndo c.recorder.historyState = true
    · have hcur0 : 0 ≤ c.recorder.historyState.undoCursor := by
        simpa [canUndo] using hcan
      have hlt : c.recorder.historyState.undoCursor.toNat <
          c.recorder.actions.length := by omega
      obtain ⟨a, ha⟩ : ∃ a, c.recorder.actions.get?
          c.recorder.historyState.undoCursor.toNat = some a := by
        rw [List.get?_eq_get hlt]
        exact ⟨_, rfl⟩
      have hget : jsGet c.recorder.actions c.recorder.historyState.undoCursor =
          some a := by
        rw [jsGet_eq_get hcur0]
        exact ha
      have hc2eq := ctrl_undo_some c (recorder_undo_some hcan hget)
      rw [hc2eq]
      left
      refine ⟨?_, ?_, ?_, ?_, ?_, ?_⟩
      · show ((c.recorder.actions.length : Int)) =
          (undoHistoryState c.recorder.historyState).actionCount
        rw [undoHistoryState_can hcan]
        exact hc1
      · show -1 ≤ (undoHistoryState c.recorder.historyState).undoCursor
        rw [undoHistoryState_can hcan]
        simp only
        omega
      · show (undoHistoryState c.recorder.historyState).undoCursor ≤
          (undoHistoryState c.recorder.historyState).actionCount - 1
        rw [undoHistoryState_can hcan]
        simp only
        omega
      · show ScenePermEq (engScene (rebuildFromPatches c a.inverse))
          (replayTo S0 c.recorder.actions
            ((undoHistoryState c.recorder.historyState).undoCursor + 1).toNat)
        rw [undoHistoryState_can hcan, rebuild_scene]
        simp only
        have hnat : (c.recorder.historyState.undoCursor - 1 + 1).toNat =
            c.recorder.historyState.undoCursor.toNat := by omega
        rw [hnat]
        refine scenePermEq_trans (applyPatches_permCongr hscene a.inverse) ?_
        have hsucc : (c.recorder.historyState.undoCursor + 1).toNat =
            c.recorder.historyState.undoCursor.toNat + 1 := by omega
        rw [hsucc]
        exact hrt c.recorder.historyState.undoCursor.toNat a ha
      · exact hrt
      · exact hun
    · have heq := ctrl_undo_none c (by rw [recorder_undo_nocan hcan])
      rw [heq]
      exact Or.inl ⟨hc1, hc2, hc3, hscene, hrt, hun⟩
  · obtain ⟨hcur, hlen⟩ := hcorr
    by_cases hcan : canUndo c.recorder.historyState = true
    · have hget : jsGet c.recorder.actions c.recorder.historyState.undoCursor =
          none := jsGet_none_of_ge hlen
      have heq := ctrl_undo_none c (by rw [recorder_undo_noget hget])
      rw [heq]
      exact Or.inr ⟨hcur, hlen⟩
    · have heq := ctrl_undo_none c (by rw [recorder_undo_nocan hcan])
      rw [heq]
      exact Or.inr ⟨hcur, hlen⟩

theorem ctrlInv_redo (S0 : DrawingScene) (c : DrawingBlockController)
    (h : CtrlInv S0 c) : CtrlInv S0 (c.redo).2 := by
  rcases h with hclean | hcorr
  · obtain ⟨hc1, hc2, hc3, hscene, hrt, hun⟩ := hclean
    by_cases hcan : canRedo c.recorder.historyState = true
    · have hlt2 : c.recorder.historyState.undoCursor <
          c.recorder.historyState.actionCount - 1 := by
        simpa [canRedo] using hcan
      have hlt : (c.recorder.historyState.undoCursor + 1).toNat <
          c.recorder.actions.length := by omega
      obtain ⟨a, ha⟩ : ∃ a, c.recorder.actions.get?
          (c.recorder.historyState.undoCursor + 1).toNat = some a := by
        rw [List.get?_eq_get hlt]
        exact ⟨_, rfl⟩
      have hget : jsGet c.recorder.actions
          (c.recorder.historyState.undoCursor + 1) = some a := by
        rw [jsGet_eq_get (by omega)]
        exact ha
      have hc2eq := ctrl_redo_some c (recorder_redo_some hcan hget)
      rw [hc2eq]
      left
      refine ⟨?_, ?_, ?_, ?_, ?_, ?_⟩
      · show ((c.recorder.actions.length : Int)) =
          (redoHistoryState c.recorder.historyState).actionCount
        rw [redoHistoryState_can hcan]
        exact hc1
      · show -1 ≤ (redoHistoryState c.recorder.historyState).undoCursor
        rw [redoHistoryState_can hcan]
        simp only
        omega
      · show (redoHistoryState c.recorder.historyState).undoCursor ≤
          (redoHistoryState c.recorder.historyState).actionCount - 1
        rw [redoHistoryState_can hcan]
        simp only
        omega
      · show ScenePermEq (engScene (rebuildFromPatches c a.forward))
          (replayTo S0 c.recorder.actions
            ((redoHistoryState c.recorder.historyState).undoCursor + 1).toNat)
        rw [redoHistoryState_can hcan, rebuild_scene]
        simp only
        have hnat : (c.recorder.historyState.undoCursor + 1 + 1).toNat =
            (c.recorder.historyState.undoCursor + 1).toNat + 1 := by omega
        rw [hnat]
        refine scenePermEq_trans (applyPatches_permCongr hscene a.forward) ?_
        rw [replayTo_succ S0 c.recorder.actions ha]
        exact scenePermEq_refl _
      · exact hrt
      · exact hun
    · have heq := ctrl_redo_none c (by rw [recorder_redo_nocan hcan])
      rw [heq]
      exact Or.inl ⟨hc1, hc2, hc3, hscene, hrt, hun⟩
  · obtain ⟨hcur, hlen⟩ := hcorr
    have hcan : ¬ canRedo c.recorder.historyState = true := by
      unfold canRedo
      simp only [decide_eq_true_eq, not_lt]
      omega
    have heq := ctrl_redo_none c (by rw [recorder_redo_nocan hcan])
    rw [heq]
    exact Or.inr ⟨hcur, hlen⟩

theorem ctrlInv_record_any (S0 : DrawingScene) (c c2 : DrawingBlockController)
    (fwd inv : List DrawingPatch) (g : String) (t : Int)
    (hinv : CtrlInv S0 c)
    (heng : CtrlClean S0 c → engScene c2 = applyPatches (engScene c) fwd)
    (hrec : c2.recorder = c.recorder.record g t fwd inv)
    (hrt2 : CtrlClean S0 c → ∀ T, ScenePermEq (engScene c) T →
      UniqueIds T.elements →
      ScenePermEq (applyPatches (applyPatches T fwd) inv) T)
    (huniq2 : CtrlClean S0 c → ∀ T, ScenePermEq (engScene c) T →
      UniqueIds T.elements → UniqueIds (applyPatches T fwd).elements) :
    CtrlInv S0 c2 := by
  rcases hinv with hclean | hcorr
  · by_cases hcend : c.recorder.historyState.undoCursor =
        c.recorder.historyState.actionCount - 1
    · exact Or.inl (ctrlClean_record S0 c c2 fwd inv g t hclean hcend
        (heng hclean) hrec (hrt2 hclean) (huniq2 hclean))
    · obtain ⟨hc1, hc2, hc3, -, -, -⟩ := hclean
      exact Or.inr (ctrlCorrupt_record_behind c c2 fwd inv g t hc1 hc2
        (by omega) hrec)
  · exact Or.inr (ctrlCorrupt_record c c2 fwd inv g t hcorr hrec)

theorem ctrlInv_mutStep (S0 : DrawingScene) (c : DrawingBlockController)
    (op : MutOp) (g : String) (t : Int) (h : CtrlInv S0 c)
    (hok : stepOK c (.mutate op g t) = true) :
    CtrlInv S0 (mutStep c op g t) := by
  cases op with
  | addElement el =>
      have hfresh : ∀ e ∈ c.engine.elements, e.id ≠ el.id := by
        simp only [stepOK, freshId, List.all_eq_true, decide_eq_true_eq] at hok
        exact hok
      refine ctrlInv_record_any S0 c _ [.add_element el] [.delete_element el.id]
        g t h ?_ ?_ ?_ ?_
      · intro _
        rw [mutStep_add]
        rfl
      · rw [mutStep_add]
      · intro _ T hT _
        rw [roundtrip_add T el (fresh_transport hT.1 el.id hfresh)]
        exact scenePermEq_refl _
      · intro _ T hT hTU
        exact uniq_add hTU el (fresh_transport hT.1 el.id hfresh)
  | updateElement i p =>
      rcases hu : updateFirst c.engine.elements i p with ⟨fst, els2⟩
      cases fst with
      | none =>
          rw [mutStep_update_miss c i p g t hu]
          exact h
      | some b =>
          have h1 : (updateFirst c.engine.elements i p).1 = some b := by rw [hu]
          obtain ⟨hbmem, hbid⟩ := updateFirst_fst_mem h1
          refine ctrlInv_record_any S0 c _ [.update_element i p]
            [.update_element i (extractReversePatch b p)] g t h ?_ ?_ ?_ ?_
          · intro hclean
            have hUeng := ctrlClean_uniq_engine S0 c hclean
            have hsnd : els2 =
                applyElementPatch c.engine.elements (.update_element i p) := by
              have h2 := updateFirst_snd_map hUeng i p
              rw [hu] at h2
              exact h2
            rw [mutStep_update_hit c i p g t hu]
            show (⟨c.drawingId, els2, c.engine.appState, c.engine.files⟩ :
              DrawingScene) = _
            rw [hsnd]
            rfl
          · rw [mutStep_update_hit c i p g t hu]
          · intro hclean T hT _
            have hUeng := ctrlClean_uniq_engine S0 c hclean
            exact scenePermEq_of_sceneEq (roundtrip_update T i p b
              (match_transport hT.1 hUeng hbmem hbid))
          · intro _ T _ hTU
            exact uniq_update hTU i p
  | deleteElement i =>
      rcases hu : deleteFirst c.engine.elements i with ⟨fst, els2⟩
      cases fst with
      | none =>
          rw [mutStep_delete_miss c i g t hu]
          exact h
      | some rm =>
          have h1 : (deleteFirst c.engine.elements i).1 = some rm := by rw [hu]
          obtain ⟨hmem, hid⟩ := deleteFirst_fst_mem h1
          refine ctrlInv_record_any S0 c _ [.delete_element i] [.add_element rm]
            g t h ?_ ?_ ?_ ?_
          · intro hclean
            have hUeng := ctrlClean_uniq_engine S0 c hclean
            have hsnd : els2 =
                applyElementPatch c.engine.elements (.delete_element i) := by
              have h2 := deleteFirst_snd_filter hUeng i
              rw [hu] at h2
              exact h2
            rw [mutStep_delete_hit c i g t hu]
            show (⟨c.drawingId, els2, c.engine.appState, c.engine.files⟩ :
              DrawingScene) = _
            rw [hsnd]
            rfl
          · rw [mutStep_delete_hit c i g t hu]
          · intro _ T hT hTU
            obtain ⟨e, he, hrm⟩ := mem_transport hT.1 hmem
            exact roundtrip_delete T i rm hTU e he
              (by rw [← elemEq_id hrm]; exact hid) hrm
          · intro _ T _ hTU
            exact uniq_delete hTU i
  | setAppState p =>
      refine ctrlInv_record_any S0 c _ [.set_app_state p]
        [.set_app_state (extractReversePatchObj c.engine.appState p)] g t h
        ?_ ?_ ?_ ?_
      · intro _
        rw [mutStep_setApp]
        rfl
      · rw [mutStep_setApp]
      · intro _ T hT _
        exact scenePermEq_of_sceneEq (roundtrip_setApp T p c.engine.appState
          hT.2.1)
      · intro _ T _ hTU
        exact hTU
  | upsertFiles f =>
      simp [stepOK] at hok

theorem ctrlInv_step (S0 : DrawingScene) (c : DrawingBlockController)
    (s : CtrlStep) (h : CtrlInv S0 c) (hok : stepOK c s = true) :
    CtrlInv S0 (ctrlStep c s) := by
  cases s with
  | mutate op g t => exact ctrlInv_mutStep S0 c op g t h hok
  | undo => exact ctrlInv_undo S0 c h
  | redo => exact ctrlInv_redo S0 c h

theorem ctrlInv_run (S0 : DrawingScene) :
    ∀ (steps : List CtrlStep) (c : DrawingBlockController),
      CtrlInv S0 c → goodSteps c steps = true →
      CtrlInv S0 (runSteps c steps) := by
  intro steps
  induction steps with
  | nil =>
      intro c h _
      exact h
  | cons s rest ih =>
      intro c h hg
      simp only [goodSteps, Bool.and_eq_true] at hg
      exact ih _ (ctrlInv_step S0 c s h hg.1) hg.2

theorem ctrlInv_init (S0 : DrawingScene) (hU : UniqueIds S0.elements) :
    CtrlInv S0 (initCtrl S0) := by
  left
  refine ⟨rfl, ?_, ?_, ?_, ?_, ?_⟩
  · simp [initCtrl, DrawingBlockController.make, ActionRecorder.make,
      DrawingBlockController.loadScene, ActionRecorder.load,
      createInitialHistoryState]
  · simp [initCtrl, DrawingBlockController.make, ActionRecorder.make,
      DrawingBlockController.loadScene, ActionRecorder.load,
      createInitialHistoryState]
  · exact scenePermEq_refl S0
  · intro k a hget
    simp [initCtrl, DrawingBlockController.make, ActionRecorder.make,
      DrawingBlockController.loadScene, ActionRecorder.load] at hget
  · intro m
    simpa [initCtrl, DrawingBlockController.make, ActionRecorder.make,
      DrawingBlockController.loadScene, ActionRecorder.load, replayTo,
      applyPatchLists] using hU

/-! ## Undo-then-redo and upsert-then-undo chains -/

theorem engScene_set_recorder (x : DrawingBlockController) (r : ActionRecorder)
    (n : Nat) : engScene { x with recorder := r, emits := n } = engScene x := rfl

theorem recorder_undone_redo {r : ActionRecorder} {a : DrawingAction}
    (hcan : canUndo r.historyState = true)
    (hget : jsGet r.actions r.historyState.undoCursor = some a)
    (hbound : r.historyState.undoCursor ≤ r.historyState.actionCount - 1) :
    ({ r with historyState := undoHistoryState r.historyState } :
      ActionRecorder).redo = (some a.forward, r) := by
  have hcur0 : 0 ≤ r.historyState.undoCursor := by simpa [canUndo] using hcan
  have hhs1 := undoHistoryState_can hcan
  have h1 : ({ r with historyState := undoHistoryState r.historyState } :
      ActionRecorder).historyState =
      ⟨r.historyState.undoCursor - 1, r.historyState.actionCount⟩ := hhs1
  have hcanr : canRedo ({ r with
      historyState := undoHistoryState r.historyState } :
      ActionRecorder).historyState = true := by
    rw [h1]
    unfold canRedo
    simp only [decide_eq_true_eq]
    omega
  have hgetr : jsGet ({ r with
        historyState := undoHistoryState r.historyState } :
        ActionRecorder).actions
      (({ r with historyState := undoHistoryState r.historyState } :
        ActionRecorder).historyState.undoCursor + 1) = some a := by
    rw [h1]
    show jsGet r.actions (r.historyState.undoCursor - 1 + 1) = some a
    rw [show r.historyState.undoCursor - 1 + 1 =
      r.historyState.undoCursor by ring]
    exact hget
  rw [recorder_redo_some hcanr hgetr]
  congr 1
  rw [redoHistoryState_can hcanr, h1]
  simp only
  rw [show r.historyState.undoCursor - 1 + 1 =
    r.historyState.undoCursor by ring]

theorem ctrl_undo_redo (S0 : DrawingScene) (c : DrawingBlockController)
    (h : CtrlInv S0 c) (hsucc : (c.undo).1 = true) :
    ((c.undo).2.redo).1 = true ∧
      ScenePermEq (engScene ((c.undo).2.redo).2) (engScene c) := by
  rcases h with hclean | hcorr
  · obtain ⟨hc1, hc2, hc3, hscene, hrt, hun⟩ := hclean
    by_cases hcan : canUndo c.recorder.historyState = true
    · have hcur0 : 0 ≤ c.recorder.historyState.undoCursor := by
        simpa [canUndo] using hcan
      have hlt : c.recorder.historyState.undoCursor.toNat <
          c.recorder.actions.length := by omega
      obtain ⟨a, ha⟩ : ∃ a, c.recorder.actions.get?
          c.recorder.historyState.undoCursor.toNat = some a := by
        rw [List.get?_eq_get hlt]
        exact ⟨_, rfl⟩
      have hget : jsGet c.recorder.actions c.recorder.historyState.undoCursor =
          some a := by
        rw [jsGet_eq_get hcur0]
        exact ha
      have hc2eq := ctrl_undo_some c (recorder_undo_some hcan hget)
      rw [hc2eq]
      have hredo := recorder_undone_redo hcan hget hc3
      have hc3eq := ctrl_redo_some
        ({ rebuildFromPatches c a.inverse with
            recorder := { c.recorder with
              historyState := undoHistoryState c.recorder.historyState }
            emits := c.emits + 1 }) hredo
      rw [hc3eq]
      refine ⟨rfl, ?_⟩
      rw [engScene_set_recorder, rebuild_scene, engScene_set_recorder,
        rebuild_scene]
      have hsucc2 : (c.recorder.historyState.undoCursor + 1).toNat =
          c.recorder.historyState.undoCursor.toNat + 1 := by omega
      have hinvstep : ScenePermEq (applyPatches (engScene c) a.inverse)
          (replayTo S0 c.recorder.actions
            c.recorder.historyState.undoCursor.toNat) := by
        refine scenePermEq_trans (applyPatches_permCongr hscene a.inverse) ?_
        rw [hsucc2]
        exact hrt c.recorder.historyState.undoCursor.toNat a ha
      refine scenePermEq_trans (applyPatches_permCongr hinvstep a.forward) ?_
      rw [← replayTo_succ S0 c.recorder.actions ha, ← hsucc2]
      exact scenePermEq_symm hscene
    · have heq := ctrl_undo_none c (by rw [recorder_undo_nocan hcan])
      rw [heq] at hsucc
      simp at hsucc
  · obtain ⟨hcur, hlen⟩ := hcorr
    by_cases hcan : canUndo c.recorder.historyState = true
    · have hget : jsGet c.recorder.actions c.recorder.historyState.undoCursor =
          none := jsGet_none_of_ge hlen
      have heq := ctrl_undo_none c (by rw [recorder_undo_noget hget])
      rw [heq] at hsucc
      simp at hsucc
    · have heq := ctrl_undo_none c (by rw [recorder_undo_nocan hcan])
      rw [heq] at hsucc
      simp at hsucc

theorem upsert_undo_files (c : DrawingBlockController) (F : DrawingFiles)
    (g : String) (t : Int) (hinv : RecInv c.recorder) :
    (((c.upsertFiles F g t).undo).2).engine.files = omerge c.engine.files F := by
  obtain ⟨hge, hcases⟩ := hinv
  have hhs1 : (c.upsertFiles F g t).recorder.historyState =
      ⟨c.recorder.historyState.actionCount,
        c.recorder.historyState.actionCount + 1⟩ := rfl
  have hrec1 : (c.upsertFiles F g t).recorder =
      c.recorder.record g t [.upsert_files F] [.upsert_files []] := rfl
  have hlen1 : (((c.upsertFiles F g t).recorder.actions.length : Int)) =
      min (c.recorder.historyState.undoCursor + 1)
        (c.recorder.actions.length : Int) + 1 := by
    rw [hrec1]
    exact record_len_nonneg g t _ _ (by omega)
  rcases hcases with ⟨hlen, hcur⟩ | ⟨hcur, hlen⟩
  · by_cases hcend : c.recorder.historyState.undoCursor =
        c.recorder.historyState.actionCount - 1
    · have hend : c.recorder.historyState.undoCursor + 1 =
          (c.recorder.actions.length : Int) := by omega
      have hacts1 : (c.upsertFiles F g t).recorder.actions =
          c.recorder.actions ++
            [⟨c.recorder.drawingId, g, [.upsert_files F],
              [.upsert_files []], t⟩] := by
        rw [hrec1, record_actions_clean _ _ _ _ hend]
      have hcanu : canUndo (c.upsertFiles F g t).recorder.historyState =
          true := by
        rw [hhs1]
        unfold canUndo
        simp only [decide_eq_true_eq]
        omega
      have hgetu : jsGet (c.upsertFiles F g t).recorder.actions
          (c.upsertFiles F g t).recorder.historyState.undoCursor =
          some ⟨c.recorder.drawingId, g, [.upsert_files F],
            [.upsert_files []], t⟩ := by
        rw [hhs1, hacts1]
        simp only
        rw [jsGet_eq_get (by omega)]
        rw [show (c.recorder.historyState.actionCount).toNat =
          c.recorder.actions.length by omega]
        exact List.get?_concat_length _ _
      have heq := ctrl_undo_some (c.upsertFiles F g t)
        (recorder_undo_some hcanu hgetu)
      rw [heq]
      rfl
    · have hget : jsGet (c.upsertFiles F g t).recorder.actions
          (c.upsertFiles F g t).recorder.historyState.undoCursor = none := by
        rw [hhs1]
        simp only
        exact jsGet_none_of_ge (by omega)
      have heq := ctrl_undo_none _ (by rw [recorder_undo_noget hget])
      rw [heq]
      rfl
  · have hget : jsGet (c.upsertFiles F g t).recorder.actions
        (c.upsertFiles F g t).recorder.historyState.undoCursor = none := by
      rw [hhs1]
      simp only
      exact jsGet_none_of_ge (by omega)
    have heq := ctrl_undo_none _ (by rw [recorder_undo_noget hget])
    rw [heq]
    rfl

/-! ## Helper lemmas for the claims -/

theorem freshId_spec {els : List DrawingElement} {i : String}
    (h : freshId els i = true) : ∀ e ∈ els, e.id ≠ i := by
  intro e he
  unfold freshId at h
  rw [List.all_eq_true] at h
  simpa using h e he

theorem updateFirst_none_snd {els : List DrawingElement} {i : String} {p : Obj}
    (h : (updateFirst els i p).1 = none) : (updateFirst els i p).2 = els := by
  induction els with
  | nil => rfl
  | cons a rest ih =>
      by_cases ha : a.id = i
      · simp [updateFirst, ha] at h
      · simp only [updateFirst, if_neg ha] at h ⊢
        rw [ih h]

theorem deleteFirst_none_snd {els : List DrawingElement} {i : String}
    (h : (deleteFirst els i).1 = none) : (deleteFirst els i).2 = els := by
  induction els with
  | nil => rfl
  | cons a rest ih =>
      by_cases ha : a.id = i
      · simp [deleteFirst, ha] at h
      · simp only [deleteFirst, if_neg ha] at h ⊢
        rw [ih h]

theorem updateElement_elements (s : DefaultDrawingEngine) (i : String) (p : Obj) :
    ((s.updateElement i p).2).elements = (updateFirst s.elements i p).2 := by
  unfold DefaultDrawingEngine.updateElement
  cases hu : updateFirst s.elements i p with
  | mk f snd =>
      cases f with
      | none =>
          have h1 : (updateFirst s.elements i p).1 = none := by rw [hu]
          have h2 := updateFirst_none_snd h1
          rw [hu] at h2
          exact h2.symm
      | some b => rfl

theorem deleteElement_elements (s : DefaultDrawingEngine) (i : String) :
    ((s.deleteElement i).2).elements = (deleteFirst s.elements i).2 := by
  unfold DefaultDrawingEngine.deleteElement
  cases hu : deleteFirst s.elements i with
  | mk f snd =>
      cases f with
      | none =>
          have h1 : (deleteFirst s.elements i).1 = none := by rw [hu]
          have h2 := deleteFirst_none_snd h1
          rw [hu] at h2
          exact h2.symm
      | some b => rfl

theorem updateFirst_ids (els : List DrawingElement) (i : String) (p : Obj) :
    (updateFirst els i p).2.map DrawingElement.id = els.map DrawingElement.id := by
  induction els with
  | nil => rfl
  | cons a rest ih =>
      by_cases ha : a.id = i
      · simp only [updateFirst, if_pos ha, List.map_cons, mergeElement_id]
      · simp only [updateFirst, if_neg ha, List.map_cons]
        rw [ih]

theorem updateFirst_hit {els : List DrawingElement} {i : String} (p : Obj)
    (hmem : ∃ el ∈ els, el.id = i) :
    ∃ b, (updateFirst els i p).1 = some b := by
  induction els with
  | nil => simp at hmem
  | cons a rest ih =>
      by_cases ha : a.id = i
      · exact ⟨a, by simp [updateFirst, ha]⟩
      · obtain ⟨el, hel, hid⟩ := hmem
        rcases List.mem_cons.mp hel with rfl | hel2
        · exact absurd hid ha
        · obtain ⟨b, hb⟩ := ih ⟨el, hel2, hid⟩
          exact ⟨b, by simp [updateFirst, ha, hb]⟩

/-! ## The ten claims -/

/-- Counterexample for C1 as literally stated: after recording a single
`deleteElement`, replaying the forward patch lists and then the reversed
inverse patch lists re-appends the deleted element at the end of the
element array, so the element sequence comes back reordered and fails
ordered structural equality with the starting scene. -/
theorem C1_counterexample :
    ¬ SceneEq
      (applyPatchLists
        (applyPatchLists sceneAB
          (forwardLists (runSteps (initCtrl sceneAB)
            [CtrlStep.mutate (.deleteElement "e1") "g1" 1])))
        (inverseListsRev (runSteps (initCtrl sceneAB)
          [CtrlStep.mutate (.deleteElement "e1") "g1" 1])))
      sceneAB := by decide

/-- Claim C1 (corrected): for every starting scene with unique element
ids and every run of recorded mutating operations whose adds are fresh
(upsertFiles excepted, as in the claim), applying all recorded forward
patch lists in order and then all recorded inverse patch lists in reverse
order restores the scene's elements, appState and files up to structural
equality with the element sequence compared up to reordering; the literal
ordered version is refuted by the counterexample. -/
theorem C1_theorem (S0 : DrawingScene) (ops : List (MutOp × String × Int))
    (hU : UniqueIds S0.elements)
    (hg : goodSteps (initCtrl S0)
      (ops.map fun x => CtrlStep.mutate x.1 x.2.1 x.2.2) = true) :
    ScenePermEq
      (applyPatchLists
        (applyPatchLists S0
          (forwardLists (runSteps (initCtrl S0)
            (ops.map fun x => CtrlStep.mutate x.1 x.2.1 x.2.2))))
        (inverseListsRev (runSteps (initCtrl S0)
          (ops.map fun x => CtrlStep.mutate x.1 x.2.1 x.2.2))))
      S0 := by
  have hinv := mutRunInv_run S0 ops (initCtrl S0) (mutRunInv_init S0 hU) hg
  obtain ⟨h1, h2, h3, hrt, hun⟩ := hinv
  have hrb := rollback_aux S0
    (runSteps (initCtrl S0)
      (ops.map fun x => CtrlStep.mutate x.1 x.2.1 x.2.2)).recorder.actions
    hrt _ (le_refl _)
  unfold replayTo at hrb
  rw [List.take_length] at hrb
  unfold forwardLists inverseListsRev
  exact hrb

theorem C1_witness :
    UniqueIds sceneAB.elements ∧
    goodSteps (initCtrl sceneAB)
      (opsW.map fun x => CtrlStep.mutate x.1 x.2.1 x.2.2) = true ∧
    ScenePermEq
      (applyPatchLists
        (applyPatchLists sceneAB
          (forwardLists (runSteps (initCtrl sceneAB)
            (opsW.map fun x => CtrlStep.mutate x.1 x.2.1 x.2.2))))
        (inverseListsRev (runSteps (initCtrl sceneAB)
          (opsW.map fun x => CtrlStep.mutate x.1 x.2.1 x.2.2))))
      sceneAB :=
  ⟨by decide, by decide, C1_theorem sceneAB opsW (by decide) (by decide)⟩

/-- Claim C2 (code bug): `recPre` is reached through the public API
(record one action, undo it) and holds one logged action with the cursor
at -1. The next `record` does discard the abandoned action beyond the
cursor and does append exactly one new action — the log becomes precisely
the new action, so `newLength = 1` — but `advanceHistory` computes the
cursor fields from the stale pre-truncation `actionCount`: afterwards
`actionCount = 2` and `undoCursor = 1`, so `undoCursor` is not
`newLength - 1 = 0`, and the log length does not equal `actionCount`,
refuting the claimed record postcondition and both claimed invariants on
a reachable state. -/
theorem C2_theorem :
    recBug = recPre.record "g2" 2 [.add_element elemB] [.delete_element "e2"] ∧
    recPre.actions.length = 1 ∧
    recPre.historyState = ⟨-1, 1⟩ ∧
    recBug.actions =
      [⟨"d1", "g2", [.add_element elemB], [.delete_element "e2"], 2⟩] ∧
    recBug.actions.length = 1 ∧
    recBug.historyState.actionCount = 2 ∧
    recBug.historyState.undoCursor = 1 ∧
    ¬ ((recBug.actions.length : Int) = recBug.historyState.actionCount) ∧
    ¬ (recBug.historyState.undoCursor = (recBug.actions.length : Int) - 1) := by
  decide

/-- Claim C3 (code bug): in the reachable record-undo-record state the
cursor is `1 ≥ 0`, so per the claim `undo()` should return the inverse
patches of the action at index 1 and decrement the cursor; instead
`actions[1]` is `undefined`, the guard returns `null`, the recorder is
left unchanged, and the controller's `undo()` returns `false`. -/
theorem C3_theorem :
    0 ≤ recBug.historyState.undoCursor ∧
    (recBug.undo).1 = none ∧ (recBug.undo).2 = recBug ∧
    0 ≤ ctrlBug.recorder.historyState.undoCursor ∧
    (ctrlBug.undo).1 = false := by decide

/-- Counterexample for C4 as literally stated: add two elements, delete
the first, undo (the engine now holds the two elements in swapped order);
a further undo followed by redo succeeds but brings the element sequence
back in replay order, which differs from the pre-undo sequence, so exact
ordered structural equality fails. -/
theorem C4_counterexample :
    ((runSteps (initCtrl sceneEmpty) stepsC4).undo).1 = true ∧
    ((((runSteps (initCtrl sceneEmpty) stepsC4).undo).2).redo).1 = true ∧
    ¬ ElemsEq
      (engScene ((((runSteps (initCtrl sceneEmpty) stepsC4).undo).2).redo).2).elements
      (engScene (runSteps (initCtrl sceneEmpty) stepsC4)).elements := by decide

/-- Claim C4 (corrected): for every controller state reached from a
starting scene with unique ids by recorded operations with fresh adds,
undos and redos, if `undo()` succeeds then the immediate `redo()` succeeds
and reproduces the pre-undo elements, appState and files up to structural
equality with the element sequence compared up to reordering; the exact
ordered version is refuted by the counterexample. -/
theorem C4_theorem (S0 : DrawingScene) (steps : List CtrlStep)
    (hU : UniqueIds S0.elements)
    (hg : goodSteps (initCtrl S0) steps = true)
    (hsucc : ((runSteps (initCtrl S0) steps).undo).1 = true) :
    ((((runSteps (initCtrl S0) steps).undo).2).redo).1 = true ∧
      ScenePermEq
        (engScene (((((runSteps (initCtrl S0) steps).undo).2).redo).2))
        (engScene (runSteps (initCtrl S0) steps)) :=
  ctrl_undo_redo S0 _
    (ctrlInv_run S0 steps (initCtrl S0) (ctrlInv_init S0 hU) hg) hsucc

theorem C4_witness :
    UniqueIds sceneEmpty.elements ∧
    goodSteps (initCtrl sceneEmpty)
      [CtrlStep.mutate (.addElement elemA) "g1" 1] = true ∧
    ((runSteps (initCtrl sceneEmpty)
      [CtrlStep.mutate (.addElement elemA) "g1" 1]).undo).1 = true ∧
    (((((runSteps (initCtrl sceneEmpty)
      [CtrlStep.mutate (.addElement elemA) "g1" 1]).undo).2).redo).1 = true ∧
      ScenePermEq
        (engScene (((((runSteps (initCtrl sceneEmpty)
          [CtrlStep.mutate (.addElement elemA) "g1" 1]).undo).2).redo).2))
        (engScene (runSteps (initCtrl sceneEmpty)
          [CtrlStep.mutate (.addElement elemA) "g1" 1]))) :=
  ⟨by decide, by decide, by decide,
    C4_theorem sceneEmpty [CtrlStep.mutate (.addElement elemA) "g1" 1]
      (by decide) (by decide) (by decide)⟩

/-- Counterexample for C5 as literally stated: after Scenario A's three
mutations and three undos the elements are `[]` as claimed, but three
redos replay add, update and the final delete, leaving `[]` rather than
the claimed `[r1 with x = 50]`. -/
theorem C5_counterexample :
    (runSteps (initCtrl sceneEmpty) stepsA).engine.elements = [] ∧
    ¬ ElemsEq (runSteps (runSteps (initCtrl sceneEmpty) stepsA)
        [CtrlStep.redo, CtrlStep.redo, CtrlStep.redo]).engine.elements
      [rectR1x50] := by decide

/-- Claim C5 (corrected): in Scenario A, undo three times yields
elements `[]`; redo twice yields `[r1 with x = 50]` (up to structural
equality of the field objects); redo a third time replays the delete and
yields `[]` again, not `[r1 with x = 50]` as claimed. -/
theorem C5_theorem :
    (runSteps (initCtrl sceneEmpty) stepsA).engine.elements = [] ∧
    ElemsEq (runSteps (runSteps (initCtrl sceneEmpty) stepsA)
        [CtrlStep.redo, CtrlStep.redo]).engine.elements [rectR1x50] ∧
    (runSteps (runSteps (initCtrl sceneEmpty) stepsA)
        [CtrlStep.redo, CtrlStep.redo, CtrlStep.redo]).engine.elements = [] := by
  decide

/-- Counterexample for C6 as literally stated: `[elemA]` has unique ids,
but adding an element with the same id — through the pure patch applier or
the engine — appends it unconditionally and breaks uniqueness. -/
theorem C6_counterexample :
    UniqueIds [elemA] ∧
    ¬ UniqueIds (applyElementPatch [elemA] (.add_element elemA)) ∧
    ¬ UniqueIds ((engA.addElement elemA).2.elements) := by decide

/-- Claim C6 (corrected): element-id uniqueness is preserved by engine
updateElement and deleteElement unconditionally, by addElement when the
added id is fresh, and by every applyPatches replay all of whose adds are
fresh at their point of application; an add with a duplicated id (which no
code path prevents) breaks it, as the counterexample shows. -/
theorem C6_theorem (s : DefaultDrawingEngine) (hU : UniqueIds s.elements) :
    (∀ el, freshId s.elements el.id = true →
      UniqueIds ((s.addElement el).2.elements)) ∧
    (∀ i p, UniqueIds ((s.updateElement i p).2.elements)) ∧
    (∀ i, UniqueIds ((s.deleteElement i).2.elements)) ∧
    (∀ (t : DrawingScene) (ps : List DrawingPatch), UniqueIds t.elements →
      freshAdds t.elements ps = true → UniqueIds (applyPatches t ps).elements) := by
  refine ⟨?_, ?_, ?_, ?_⟩
  · intro el hf
    exact uniq_add hU el (freshId_spec hf)
  · intro i p
    rw [updateElement_elements, updateFirst_snd_map hU]
    exact uniq_update hU i p
  · intro i
    rw [deleteElement_elements, deleteFirst_snd_filter hU]
    exact uniq_delete hU i
  · intro t ps
    induction ps generalizing t with
    | nil =>
        intro h _
        simpa using h
    | cons p rest ih =>
        intro hUt hf
        simp only [freshAdds, Bool.and_eq_true] at hf
        rw [applyPatches_cons]
        have hstep : UniqueIds (applyPatches t [p]).elements := by
          rw [applyPatches_single]
          show UniqueIds (applyElementPatch t.elements p)
          cases p with
          | add_element el =>
              exact uniq_add hUt el
                (freshId_spec (by simpa [patchFresh] using hf.1))
          | update_element i q => exact uniq_update hUt i q
          | delete_element i => exact uniq_delete hUt i
          | set_app_state q => exact hUt
          | upsert_files f => exact hUt
        refine ih (applyPatches t [p]) hstep ?_
        have helems : (applyPatches t [p]).elements =
            applyElementPatch t.elements p := by
          rw [applyPatches_single]
        rw [helems]
        exact hf.2

theorem C6_witness :
    UniqueIds engA.elements ∧
    ((∀ el, freshId engA.elements el.id = true →
      UniqueIds ((engA.addElement el).2.elements)) ∧
    (∀ i p, UniqueIds ((engA.updateElement i p).2.elements)) ∧
    (∀ i, UniqueIds ((engA.deleteElement i).2.elements)) ∧
    (∀ (t : DrawingScene) (ps : List DrawingPatch), UniqueIds t.elements →
      freshAdds t.elements ps = true → UniqueIds (applyPatches t ps).elements)) :=
  ⟨by decide, C6_theorem engA (by decide)⟩

/-- Claim C7 (confirmed): if the engine holds an element with id `e` then
for every field patch — including one smuggling in a conflicting `id` —
`updateElement e p` returns the pre-mutation copy of the first element
with id `e` (still carrying id `e`), the element ids of the engine are
unchanged, and the pure `update_element` applier likewise preserves every
element's id. -/
theorem C7_theorem (s : DefaultDrawingEngine) (e : String) (p : Obj)
    (hmem : ∃ el ∈ s.elements, el.id = e) :
    ∃ b, (s.updateElement e p).1 = some b ∧ b ∈ s.elements ∧ b.id = e ∧
      ((s.updateElement e p).2.elements.map DrawingElement.id =
        s.elements.map DrawingElement.id) ∧
      ∀ els, (applyElementPatch els (.update_element e p)).map
        DrawingElement.id = els.map DrawingElement.id := by
  obtain ⟨b, hb⟩ := updateFirst_hit p hmem
  refine ⟨b, ?_, (updateFirst_fst_mem hb).1, (updateFirst_fst_mem hb).2, ?_, ?_⟩
  · unfold DefaultDrawingEngine.updateElement
    cases hu : updateFirst s.elements e p with
    | mk f snd =>
        rw [hu] at hb
        cases f with
        | none => exact absurd hb (by simp)
        | some b0 => exact hb
  · rw [updateElement_elements, updateFirst_ids]
  · exact fun els => ids_applyElementPatch_update els e p

theorem C7_witness :
    (∃ el ∈ engA.elements, el.id = "e1") ∧
    (∃ b, (engA.updateElement "e1" pId).1 = some b ∧ b ∈ engA.elements ∧
      b.id = "e1" ∧
      ((engA.updateElement "e1" pId).2.elements.map DrawingElement.id =
        engA.elements.map DrawingElement.id) ∧
      ∀ els, (applyElementPatch els (.update_element "e1" pId)).map
        DrawingElement.id = els.map DrawingElement.id) :=
  ⟨by decide, C7_theorem engA "e1" pId (by decide)⟩

/-- Counterexample for C8 as literally stated: a `setAppState` call and an
`upsertFiles` call on the fresh engine leave the event trace empty — these
two mutating calls notify no subscriber at all, not exactly once. -/
theorem C8_counterexample :
    (DefaultDrawingEngine.make.setAppState pZoom).2.trace = [] ∧
    (DefaultDrawingEngine.make.upsertFiles filesK1).trace = [] ∧
    ¬ ((DefaultDrawingEngine.make.setAppState pZoom).2.trace.length = 1) ∧
    ¬ ((DefaultDrawingEngine.make.upsertFiles filesK1).trace.length = 1) := by
  decide

/-- Claim C8 (corrected): on the default engine, addElement, a hitting
updateElement, a hitting deleteElement, setSelection and loadSnapshot each
append exactly one synchronous notification to the trace before
returning (and a missing id appends none), while setAppState and
upsertFiles mutate silently and never notify, contrary to the claim. -/
theorem C8_theorem (s : DefaultDrawingEngine) :
    (∀ el, ((s.addElement el).2).trace =
      s.trace ++ [EngineEvent.elementsChange (s.elements ++ [el])]) ∧
    (∀ i p, ((s.updateElement i p).2).trace =
      if (updateFirst s.elements i p).1.isSome then
        s.trace ++ [EngineEvent.elementsChange (updateFirst s.elements i p).2]
      else s.trace) ∧
    (∀ i, ((s.deleteElement i).2).trace =
      if (deleteFirst s.elements i).1.isSome then
        s.trace ++ [EngineEvent.elementsChange (deleteFirst s.elements i).2]
      else s.trace) ∧
    (∀ ids, (s.setSelection ids).trace =
      s.trace ++ [EngineEvent.selectionChange ids]) ∧
    (∀ snap, (s.loadSnapshot snap).trace =
      s.trace ++ [EngineEvent.elementsChange snap.elements]) ∧
    (∀ p, ((s.setAppState p).2).trace = s.trace) ∧
    (∀ F, (s.upsertFiles F).trace = s.trace) := by
  refine ⟨fun el => rfl, ?_, ?_, fun ids => rfl, fun snap => rfl,
    fun p => rfl, fun F => rfl⟩
  · intro i p
    unfold DefaultDrawingEngine.updateElement
    cases hu : updateFirst s.elements i p with
    | mk f snd => cases f <;> rfl
  · intro i
    unfold DefaultDrawingEngine.deleteElement
    cases hu : deleteFirst s.elements i with
    | mk f snd => cases f <;> rfl

/-- Claim C9 (confirmed): for any files map, `upsertFiles` records an
action whose inverse is the empty files patch, and the subsequent `undo`
leaves the engine's files equal to the pre-call files merged with the
upserted map — every upserted key stays present; file upserts are not
reversed by undo. -/
theorem C9_theorem (c : DrawingBlockController) (F : DrawingFiles)
    (g : String) (t : Int) (hinv : RecInv c.recorder) :
    (((c.upsertFiles F g t).recorder.actions.getLast?).map
        DrawingAction.inverse) = some [DrawingPatch.upsert_files []] ∧
      (((c.upsertFiles F g t).undo).2).engine.files =
        omerge c.engine.files F := by
  constructor
  · have hrec : (c.upsertFiles F g t).recorder =
        c.recorder.record g t [.upsert_files F] [.upsert_files []] := rfl
    rw [hrec, record_actions, List.getLast?_concat]
    rfl
  · exact upsert_undo_files c F g t hinv

theorem C9_witness :
    RecInv (initCtrl sceneEmpty).recorder ∧
    ((((((initCtrl sceneEmpty).upsertFiles filesK1 "g1" 1)).recorder.actions.getLast?).map
        DrawingAction.inverse) = some [DrawingPatch.upsert_files []] ∧
      ((((initCtrl sceneEmpty).upsertFiles filesK1 "g1" 1).undo).2).engine.files =
        omerge (initCtrl sceneEmpty).engine.files filesK1) :=
  ⟨by decide, C9_theorem (initCtrl sceneEmpty) filesK1 "g1" 1 (by decide)⟩

/-- Claim C10 (confirmed): an `update_element` or `delete_element` patch
whose element id matches no element of the scene applies as the literal
identity on the scene — elements, appState, files and drawingId all
unchanged. -/
theorem C10_theorem (s : DrawingScene) (e : String) (p : Obj)
    (h : ∀ el ∈ s.elements, el.id ≠ e) :
    applyPatches s [DrawingPatch.update_element e p] = s ∧
      applyPatches s [DrawingPatch.delete_element e] = s := by
  obtain ⟨d, els, ap, fs⟩ := s
  simp only [applyPatches_single]
  constructor
  · show (⟨d, applyElementPatch els (.update_element e p), ap, fs⟩ :
      DrawingScene) = ⟨d, els, ap, fs⟩
    have hel : applyElementPatch els (.update_element e p) = els := by
      show els.map (fun el => if el.id = e then mergeElement el p else el) = els
      exact map_if_no_match p h
    rw [hel]
  · show (⟨d, applyElementPatch els (.delete_element e), ap, fs⟩ :
      DrawingScene) = ⟨d, els, ap, fs⟩
    have hel : applyElementPatch els (.delete_element e) = els := by
      show els.filter (fun el => decide (el.id ≠ e)) = els
      exact List.filter_eq_self.mpr (fun el he => by simpa using h el he)
    rw [hel]

theorem C10_witness :
    (∀ el ∈ sceneAB.elements, el.id ≠ "zz") ∧
    (applyPatches sceneAB [DrawingPatch.update_element "zz" pZoom] = sceneAB ∧
      applyPatches sceneAB [DrawingPatch.delete_element "zz"] = sceneAB) :=
  ⟨by decide, C10_theorem sceneAB "zz" pZoom (by decide)⟩
